/-
Verification of the analytics core of the Store_CrossAnalysis repository.

We give a shallow embedding of the core algorithms
(`src/localization/device_localizer.py`, `src/analytics/traffic_analyzer.py`,
`src/analytics/visitor_classifier.py`, `src/analytics/mac_stitcher.py`)
and prove or refute the specification claims about them.

Modelling conventions:
* pandas DataFrames are lists of row structures, in row order;
* Python floats are modelled exactly: rational arithmetic by `ℚ`,
  `numpy.sqrt`-valued quantities (standard deviations, path lengths,
  similarity scores) by `ℝ`;
* `time_index` values and device-type codes are `ℤ`; identifiers and
  sensor names are `String`;
* Python dicts are association lists in insertion order; Python sets are
  duplicate-free lists (set iteration order only ever affects row order of
  emitted tables, never any value a claim mentions);
* `pandas.groupby` returns its groups keyed in sorted key order; we keep
  first-occurrence order instead, which again only permutes output rows;
* code that would raise (`KeyError` on a missing dict key) returns `Option`.
-/
import Mathlib

attribute [local semireducible] Rat.add Rat.sub Rat.mul Rat.inv

namespace StoreCross

/-! ### Generic list helpers (model pandas / numpy primitives) -/

/-- Deduplication keeping first occurrences, as `pandas.Series.unique`. -/
def uniqueFirstAux {α : Type} [DecidableEq α] : List α → List α → List α
  | _, [] => []
  | seen, a :: l =>
    if a ∈ seen then uniqueFirstAux seen l else a :: uniqueFirstAux (a :: seen) l

/-- `pandas.Series.unique`: distinct values in first-occurrence order. -/
def uniqueFirst {α : Type} [DecidableEq α] (l : List α) : List α :=
  uniqueFirstAux [] l

/-- Insert into a sorted list, after all elements `b` with `¬ le a b` (stable). -/
def insertLe {α : Type} (le : α → α → Bool) (a : α) : List α → List α
  | [] => [a]
  | b :: l => if le a b then a :: b :: l else b :: insertLe le a l

/-- Stable insertion sort (models the stable sorts used by pandas/numpy). -/
def insSort {α : Type} (le : α → α → Bool) : List α → List α
  | [] => []
  | a :: l => insertLe le a (insSort le l)

/-- Arithmetic mean of a list of rationals (`numpy.mean`, `Series.mean`). -/
def meanQ (l : List ℚ) : ℚ := l.sum / l.length

/-- Minimum of a list (`Series.min`); pandas only takes it on non-empty groups. -/
def minD (l : List ℤ) : ℤ :=
  match l with
  | [] => 0
  | a :: l => l.foldl min a

/-- Maximum of a list (`Series.max`). -/
def maxD (l : List ℤ) : ℤ :=
  match l with
  | [] => 0
  | a :: l => l.foldl max a

/-- Python `int(_)` / numpy `astype(int)`: truncation toward zero. -/
def ratTrunc (q : ℚ) : ℤ := q.num.tdiv q.den

/-- Sample variance with `ddof = 1` (exact value under the square root of
`pandas.Series.std`). -/
def sampleVarQ (l : List ℚ) : ℚ :=
  (l.map (fun x => (x - meanQ l) ^ 2)).sum / ((l.length : ℚ) - 1)

/-- `pandas.Series.std` (`ddof = 1`), with the `NaN` of a singleton sample
replaced by `0` as the source's `fillna(0)` / `if pd.isna` branches do. -/
noncomputable def sampleStd (l : List ℚ) : ℝ :=
  if l.length < 2 then 0 else Real.sqrt (sampleVarQ l)

/-- Sum of consecutive Euclidean distances
(`np.sqrt(dx**2 + dy**2).sum()` over `diff`ed coordinates). -/
noncomputable def pathLen : List (ℚ × ℚ) → ℝ
  | [] => 0
  | [_] => 0
  | p :: q :: r =>
    Real.sqrt (((q.1 - p.1 : ℚ) : ℝ) ^ 2 + ((q.2 - p.2 : ℚ) : ℝ) ^ 2) + pathLen (q :: r)

/-! ### Data model -/

/-- One raw detection record (row of `rawdata`): `time_index`, `mac_address`,
`sward_name`, `rssi`, and the device type (`type`/`device_type` column;
iPhone = 1, Android = 10; `0` models Python's falsy `None`/`0`). -/
structure Raw where
  time_index : ℤ
  mac_address : String
  sward_name : String
  rssi : ℚ
  device_type : ℤ
deriving DecidableEq, Repr

/-- One position estimate (row of `positions_df`). -/
structure Pos where
  time_index : ℤ
  mac_address : String
  device_type : ℤ
  x : ℚ
  y : ℚ
deriving DecidableEq, Repr

/-! ### DeviceLocalizer (src/localization/device_localizer.py) -/

/-- `DeviceLocalizer.rssi_to_distance`: piecewise-linear RSSI → distance,
`-60 dBm ↦ 2.0`, `-80 dBm ↦ 10.0`, linear in between, clamped outside. -/
def rssi_to_distance (rssi : ℚ) : ℚ :=
  if rssi ≥ -60 then 2
  else if rssi ≤ -80 then 10
  else 2 + (10 - 2) * (-60 - rssi) / (-60 - (-80))

/-! ### TrafficAnalyzer (src/analytics/traffic_analyzer.py) -/

/-- Module-level constant `DEFAULT_RSSI_THRESHOLD`. -/
def DEFAULT_RSSI_THRESHOLD : ℚ := -80

/-- The `TrafficAnalyzer` instance state set up by `__init__`. -/
structure TrafficAnalyzer where
  pass_by_threshold : ℚ
  min_dwell_time : ℤ
  min_detections : ℕ
  rssi_threshold_iphone : ℚ
  rssi_threshold_android : ℚ
  time_unit : ℤ
deriving DecidableEq, Repr

/-- `TrafficAnalyzer.__init__`: stores every argument unchanged and derives
`min_dwell_time = int(pass_by_threshold_minutes * 60 / time_unit_seconds)`.
It performs no validation and cannot fail. -/
def TrafficAnalyzer.init (pass_by_threshold_minutes : ℚ) (min_detections_in_window : ℕ)
    (rssi_threshold_iphone : ℚ) (rssi_threshold_android : ℚ) (time_unit_seconds : ℤ) :
    TrafficAnalyzer :=
  { pass_by_threshold := pass_by_threshold_minutes
    min_dwell_time := ratTrunc (pass_by_threshold_minutes * 60 / (time_unit_seconds : ℚ))
    min_detections := min_detections_in_window
    rssi_threshold_iphone := rssi_threshold_iphone
    rssi_threshold_android := rssi_threshold_android
    time_unit := time_unit_seconds }

/-- The analyzer built with all default constructor arguments. -/
def defaultAnalyzer : TrafficAnalyzer := TrafficAnalyzer.init 2 6 (-75) (-85) 10

/-- `TrafficAnalyzer.get_rssi_threshold`. -/
def TrafficAnalyzer.get_rssi_threshold (A : TrafficAnalyzer) (device_type : ℤ) : ℚ :=
  if device_type = 1 then A.rssi_threshold_iphone
  else if device_type = 10 then A.rssi_threshold_android
  else DEFAULT_RSSI_THRESHOLD

/-- Row of the `classify_traffic` result. -/
structure TrafficRow where
  mac_address : String
  first_seen : ℤ
  last_seen : ℤ
  dwell_time_minutes : ℚ
  traffic_type : String
  record_count : ℕ
deriving DecidableEq, Repr

/-- `TrafficAnalyzer.classify_traffic` (legacy, dwell-span only): one row per
distinct identifier; `visit` iff the span from first to last detection is at
least `pass_by_threshold` minutes. -/
def classify_traffic (A : TrafficAnalyzer) (positions_df : List Pos) : List TrafficRow :=
  if positions_df = [] then []
  else
    (uniqueFirst (positions_df.map Pos.mac_address)).map fun mac =>
      let mac_data := positions_df.filter (fun p => p.mac_address = mac)
      let first_seen := minD (mac_data.map Pos.time_index)
      let last_seen := maxD (mac_data.map Pos.time_index)
      let dwell : ℚ := (((last_seen - first_seen) * A.time_unit : ℤ) : ℚ) / 60
      { mac_address := mac
        first_seen := first_seen
        last_seen := last_seen
        dwell_time_minutes := dwell
        traffic_type := if A.pass_by_threshold ≤ dwell then "visit" else "pass_by"
        record_count := mac_data.length }

/-- Result dictionary of `calculate_conversion_rate`. -/
structure ConversionStats where
  total_traffic : ℕ
  pass_by_count : ℕ
  visit_count : ℕ
  conversion_rate : ℚ
  avg_dwell_pass_by : ℚ
  avg_dwell_visit : ℚ
deriving DecidableEq, Repr

/-- `TrafficAnalyzer.calculate_conversion_rate`. -/
def calculate_conversion_rate (traffic_df : List TrafficRow) : ConversionStats :=
  if traffic_df = [] then ⟨0, 0, 0, 0, 0, 0⟩
  else
    let pass_by_df := traffic_df.filter (fun r => r.traffic_type = "pass_by")
    let visit_df := traffic_df.filter (fun r => r.traffic_type = "visit")
    let pass_by_count := pass_by_df.length
    let visit_count := visit_df.length
    let total_traffic := pass_by_count + visit_count
    { total_traffic := total_traffic
      pass_by_count := pass_by_count
      visit_count := visit_count
      conversion_rate := if 0 < total_traffic then (visit_count : ℚ) / total_traffic else 0
      avg_dwell_pass_by :=
        if 0 < pass_by_count then meanQ (pass_by_df.map TrafficRow.dwell_time_minutes) else 0
      avg_dwell_visit :=
        if 0 < visit_count then meanQ (visit_df.map TrafficRow.dwell_time_minutes) else 0 }

/-- The hour bucket `(positions_df['time_index'] * time_unit / 3600).astype(int)`. -/
def hourOf (A : TrafficAnalyzer) (p : Pos) : ℤ :=
  ratTrunc (((p.time_index * A.time_unit : ℤ) : ℚ) / 3600)

/-- Row of the `hourly_conversion_analysis` result. -/
structure HourlyRow where
  hour : ℕ
  total_traffic : ℕ
  pass_by_count : ℕ
  visit_count : ℕ
  conversion_rate : ℚ
deriving DecidableEq, Repr

/-- `TrafficAnalyzer.hourly_conversion_analysis`: one row per hour 0..23;
empty hours get zero counts, others the conversion stats of the legacy
classification of that hour's records. -/
def hourly_conversion_analysis (A : TrafficAnalyzer) (positions_df : List Pos) :
    List HourlyRow :=
  if positions_df = [] then []
  else
    (List.range 24).map fun (hour : ℕ) =>
      let hour_data := positions_df.filter (fun p => hourOf A p = (hour : ℤ))
      if hour_data = [] then ⟨hour, 0, 0, 0, 0⟩
      else
        let c := calculate_conversion_rate (classify_traffic A hour_data)
        ⟨hour, c.total_traffic, c.pass_by_count, c.visit_count, c.conversion_rate⟩

/-! #### RSSI-based classification (optimized path) -/

/-- Sort detection rows by `time_index`
(`sort_values('time_index')` / `np.argsort`, modelled stably). -/
def sortByTime (l : List Raw) : List Raw :=
  insSort (fun a b => decide (a.time_index ≤ b.time_index)) l

/-- One sliding-window probe of `_check_visitor_windows_fast`, on the
time-sorted suffix starting at the probed detection: the window slice
`[i, j)` with `j = np.searchsorted(time_indices, t_i + min_dwell_time, 'left')`
is, on a sorted array, the maximal prefix with `time_index < t_i + min_dwell_time`. -/
def fastWindowHit (A : TrafficAnalyzer) (threshold : ℚ) (suffix : List Raw) (t : ℤ) : Bool :=
  let w := suffix.takeWhile (fun r => r.time_index < t + A.min_dwell_time)
  decide (A.min_detections ≤ w.length ∧ threshold < meanQ (w.map Raw.rssi))

/-- The window loop of `_check_visitor_windows_fast` over a time-sorted group:
succeed as soon as any window starting at a detection qualifies. -/
def fastWindowLoop (A : TrafficAnalyzer) (threshold : ℚ) : List Raw → Bool
  | [] => false
  | r :: rest =>
    fastWindowHit A threshold (r :: rest) r.time_index || fastWindowLoop A threshold rest

/-- `_check_visitor_windows_fast` restricted to one identifier's group:
device type from the group's first row (original order), then the window loop
over the time-sorted rows. -/
def mac_window_visit (A : TrafficAnalyzer) (df : List Raw) (mac : String) : Bool :=
  let group := df.filter (fun r => r.mac_address = mac)
  let device_type := (group.map Raw.device_type).headD 0
  let threshold :=
    if device_type = 1 then A.rssi_threshold_iphone
    else if device_type = 10 then A.rssi_threshold_android
    else DEFAULT_RSSI_THRESHOLD
  fastWindowLoop A threshold (sortByTime group)

/-- `TrafficAnalyzer._check_visitor_windows_fast`: the set of candidate
identifiers whose group passes the fast window check. -/
def check_visitor_windows_fast (A : TrafficAnalyzer) (df : List Raw)
    (candidate_macs : List String) : List String :=
  candidate_macs.filter (fun mac => mac_window_visit A df mac)

/-- Row of the `classify_traffic_with_rssi` result (`mac_stats`). -/
structure RssiTrafficRow where
  mac_address : String
  first_seen : ℤ
  last_seen : ℤ
  record_count : ℕ
  avg_rssi : ℚ
  device_type : ℤ
  dwell_time_minutes : ℚ
  rssi_threshold_used : ℚ
  traffic_type : String
deriving DecidableEq, Repr

/-- `TrafficAnalyzer.classify_traffic_with_rssi`: per-identifier statistics;
`pass_by` by default, upgraded to `visit` exactly for identifiers with at
least `min_detections` records that pass `_check_visitor_windows_fast`. -/
def classify_traffic_with_rssi (A : TrafficAnalyzer) (rawdata : List Raw) :
    List RssiTrafficRow :=
  if rawdata = [] then []
  else
    (uniqueFirst (rawdata.map Raw.mac_address)).map fun mac =>
      let group := rawdata.filter (fun r => r.mac_address = mac)
      let first_seen := minD (group.map Raw.time_index)
      let last_seen := maxD (group.map Raw.time_index)
      let record_count := group.length
      let avg_rssi := meanQ (group.map Raw.rssi)
      let device_type := (group.map Raw.device_type).headD 0
      { mac_address := mac
        first_seen := first_seen
        last_seen := last_seen
        record_count := record_count
        avg_rssi := avg_rssi
        device_type := device_type
        dwell_time_minutes := (((last_seen - first_seen) * A.time_unit : ℤ) : ℚ) / 60
        rssi_threshold_used :=
          if device_type = 1 then A.rssi_threshold_iphone
          else if device_type = 10 then A.rssi_threshold_android
          else DEFAULT_RSSI_THRESHOLD
        traffic_type :=
          if A.min_detections ≤ record_count ∧ mac_window_visit A rawdata mac then "visit"
          else "pass_by" }

/-! ### VisitorClassifier (src/analytics/visitor_classifier.py) -/

/-- The `VisitorClassifier` instance state set up by `__init__`
(defaults: 12, 6, −75, −85, 15; `time_unit` fixed at 10). -/
structure VisitorClassifier where
  min_dwell_time : ℤ
  min_detections : ℕ
  rssi_threshold_iphone : ℚ
  rssi_threshold_android : ℚ
  rssi_std_threshold : ℚ
  time_unit : ℤ
deriving DecidableEq, Repr

/-- The classifier built with all default constructor arguments. -/
def defaultClassifier : VisitorClassifier :=
  { min_dwell_time := 12
    min_detections := 6
    rssi_threshold_iphone := -75
    rssi_threshold_android := -85
    rssi_std_threshold := 15
    time_unit := 10 }

/-- `VisitorClassifier.get_rssi_threshold`. -/
def VisitorClassifier.get_rssi_threshold (C : VisitorClassifier) (device_type : ℤ) : ℚ :=
  if device_type = 1 then C.rssi_threshold_iphone
  else if device_type = 10 then C.rssi_threshold_android
  else DEFAULT_RSSI_THRESHOLD

/-- The window test of `classify_visitors` at window start `t`: the detections
of the (time-sorted) group with `time_index ∈ [t, t + min_dwell_time)` number
at least `min_detections` and their mean RSSI strictly exceeds the threshold. -/
def visit_window (C : VisitorClassifier) (rows : List Raw) (threshold : ℚ) (t : ℤ) : Bool :=
  let w := rows.filter (fun r => t ≤ r.time_index ∧ r.time_index < t + C.min_dwell_time)
  decide (C.min_detections ≤ w.length ∧ threshold < meanQ (w.map Raw.rssi))

/-- The `is_visitor` sliding-window loop of `classify_visitors`: some window
starting at a detection of the group qualifies. -/
def is_visitor (C : VisitorClassifier) (rows : List Raw) (threshold : ℚ) : Bool :=
  rows.any (fun r => visit_window C rows threshold r.time_index)

/-- Row of the `classify_visitors` result. -/
structure VisitorRow where
  mac_address : String
  visitor_type : String
  dwell_time : ℤ
  avg_rssi : ℚ
  rssi_std : ℝ
  first_time : ℤ
  last_time : ℤ
  appearance_count : ℕ
  device_type : ℤ
  rssi_threshold_used : ℚ

/-- `VisitorClassifier.classify_visitors`: one row per identifier in
first-occurrence order; `real_visitor` iff some 2-minute window qualifies.
A `device_type` of `0` models Python's falsy `None`/`0` (default threshold). -/
noncomputable def classify_visitors (C : VisitorClassifier) (rawdata : List Raw) :
    List VisitorRow :=
  (uniqueFirst (rawdata.map Raw.mac_address)).map fun mac =>
    let mac_data := sortByTime (rawdata.filter (fun r => r.mac_address = mac))
    let device_type := (mac_data.map Raw.device_type).headD 0
    let rssi_threshold :=
      if device_type ≠ 0 then C.get_rssi_threshold device_type else DEFAULT_RSSI_THRESHOLD
    { mac_address := mac
      visitor_type := if is_visitor C mac_data rssi_threshold then "real_visitor" else "passer_by"
      dwell_time := mac_data.length * C.time_unit
      avg_rssi := meanQ (mac_data.map Raw.rssi)
      rssi_std := sampleStd (mac_data.map Raw.rssi)
      first_time := minD (mac_data.map Raw.time_index)
      last_time := maxD (mac_data.map Raw.time_index)
      appearance_count := mac_data.length
      device_type := device_type
      rssi_threshold_used := rssi_threshold }

/-! ### MACStitcher (src/analytics/mac_stitcher.py) -/

/-- Last-wins association-list lookup (a Python dict built by repeated
assignment keeps the last value written for a key). -/
def dictGet {β : Type} (l : List (String × β)) (k : String) : Option β :=
  (l.reverse.find? (fun (e : String × β) => e.1 = k)).map Prod.snd

/-- The key set of an association list, first-occurrence order. -/
def dictKeys {β : Type} (l : List (String × β)) : List String :=
  uniqueFirst (l.map Prod.fst)

/-- First-match association-list lookup (`k in dict` / `dict[k]` for the
insertion-ordered dicts built by `updateAssoc`, whose keys are distinct). -/
def lookupAssoc {β : Type} : List (String × β) → String → Option β
  | [], _ => none
  | (k', w) :: rest, k => if k' = k then some w else lookupAssoc rest k

/-- Python dict assignment `d[k] = v`: replace in place if the key exists,
append otherwise (insertion order preserved). -/
def updateAssoc {β : Type} : List (String × β) → String → β → List (String × β)
  | [], k, v => [(k, v)]
  | (k', w) :: rest, k, v =>
    if k' = k then (k', v) :: rest else (k', w) :: updateAssoc rest k v

/-- The `MACStitcher` instance state set up by `__init__`: the four
constructor arguments stored unchanged (no validation, cannot fail), plus
the preprocessed RSSI dictionary when raw data is given and fast mode off. -/
structure MACStitcher where
  time_window : ℚ
  threshold : ℝ
  rssi_data : Option (List ((ℤ × String) × List (String × ℚ)))
  fast_mode : Bool

/-- `MACStitcher._preprocess_rssi_data`: `{(time_index, mac): {sward: rssi}}`. -/
def preprocess_rssi_data (rawdata_df : List Raw) :
    List ((ℤ × String) × List (String × ℚ)) :=
  (uniqueFirst (rawdata_df.map fun r => (r.time_index, r.mac_address))).map fun k =>
    (k, (rawdata_df.filter fun r => r.time_index = k.1 ∧ r.mac_address = k.2).map
      fun r => (r.sward_name, r.rssi))

/-- `MACStitcher.__init__`. -/
def MACStitcher.init (time_window : ℚ) (threshold : ℝ) (rawdata_df : Option (List Raw))
    (fast_mode : Bool) : MACStitcher :=
  { time_window := time_window
    threshold := threshold
    fast_mode := fast_mode
    rssi_data :=
      match rawdata_df with
      | some df => if fast_mode then none else some (preprocess_rssi_data df)
      | none => none }

/-- Row of the `extract_features` result (per-identifier summary). -/
structure Feature where
  mac_address : String
  first_time : ℤ
  last_time : ℤ
  appearances : ℕ
  first_x : ℚ
  last_x : ℚ
  mean_x : ℚ
  std_x : ℝ
  first_y : ℚ
  last_y : ℚ
  mean_y : ℚ
  std_y : ℝ
  device_type : ℤ
  lifetime : ℤ
  total_distance : ℝ

/-- Sort position rows by `time_index`, stably. -/
def sortPosByTime (l : List Pos) : List Pos :=
  insSort (fun a b => decide (a.time_index ≤ b.time_index)) l

/-- `MACStitcher.extract_features`: one summary row per identifier over its
time-sorted position estimates.  (The source sorts by `(mac_address,
time_index)` and groups; filtering one identifier out of that sort is the
same as time-sorting its rows.  `groupby` emits keys in sorted order, we keep
first-occurrence order, which only permutes rows of the feature table.) -/
noncomputable def extract_features (positions_df : List Pos) : List Feature :=
  (uniqueFirst (positions_df.map Pos.mac_address)).map fun mac =>
    let mac_data := sortPosByTime (positions_df.filter (fun p => p.mac_address = mac))
    let first_time := minD (mac_data.map Pos.time_index)
    let last_time := maxD (mac_data.map Pos.time_index)
    { mac_address := mac
      first_time := first_time
      last_time := last_time
      appearances := mac_data.length
      first_x := (mac_data.map Pos.x).headD 0
      last_x := (mac_data.map Pos.x).getLastD 0
      mean_x := meanQ (mac_data.map Pos.x)
      std_x := sampleStd (mac_data.map Pos.x)
      first_y := (mac_data.map Pos.y).headD 0
      last_y := (mac_data.map Pos.y).getLastD 0
      mean_y := meanQ (mac_data.map Pos.y)
      std_y := sampleStd (mac_data.map Pos.y)
      device_type := (mac_data.map Pos.device_type).headD 0
      lifetime := (last_time - first_time) * 10
      total_distance := pathLen (mac_data.map fun p => (p.x, p.y)) }

/-- A candidate pair `(mac_a, mac_b, time_gap, overlap_time)`. -/
abbrev Candidate := String × String × ℤ × ℤ

/-- `pandas.set_index('mac_address').to_dict()`: on duplicate keys the last
row wins, so dictionary lookup is last-match search. -/
def featureDict (features : List Feature) (mac : String) : Option Feature :=
  features.reverse.find? (fun f => f.mac_address = mac)

/-- The per-identifier time sets of `generate_candidates`
(`groupby('mac_address')['time_index'].apply(set)`). -/
def macTimes (positions_filtered : List Pos) (mac : String) : List ℤ :=
  uniqueFirst ((positions_filtered.filter (fun p => p.mac_address = mac)).map Pos.time_index)

/-- The body of the double loop of `generate_candidates` for one ordered pair
of entries of `mac_list`: time-window filter, then common-time filter. -/
def candidatePair (S : MACStitcher) (type_features : List Feature)
    (times : String → List ℤ) (mac_a mac_b : String) : Option Candidate :=
  if mac_a = mac_b then none
  else
    match featureDict type_features mac_a, featureDict type_features mac_b with
    | some fa, some fb =>
      if ((fb.first_time : ℚ)) > (fa.last_time : ℚ) + S.time_window / 10 then none
      else
        let overlap_times := (times mac_a).filter (fun t => t ∈ times mac_b)
        if overlap_times = [] then none
        else some (mac_a, mac_b, (fb.first_time - fa.last_time) * 10, maxD overlap_times)
    | _, _ => none

/-- `MACStitcher.generate_candidates`: restrict to device types 1 and 10,
then for each device type pair up all ordered pairs of distinct identifiers
that pass the time-window check and share at least one `time_index`. -/
def generate_candidates (S : MACStitcher) (features_df : List Feature)
    (positions_df : List Pos) : List Candidate :=
  let random_mac_features :=
    features_df.filter (fun f => f.device_type = 1 ∨ f.device_type = 10)
  if random_mac_features.length = 0 then []
  else
    let positions_filtered :=
      positions_df.filter (fun p =>
        (random_mac_features.map Feature.mac_address).contains p.mac_address)
    let times := fun mac => macTimes positions_filtered mac
    ([1, 10] : List ℤ).flatMap fun device_type =>
      let type_features := random_mac_features.filter (fun f => f.device_type = device_type)
      if type_features.length < 2 then []
      else
        type_features.flatMap fun ra =>
          type_features.filterMap fun rb =>
            candidatePair S type_features times ra.mac_address rb.mac_address

/-- The signal-vector similarity term of `calculate_similarity`, as the exact
rational value of the float the source computes: `0` when RSSI data or the
overlap keys are missing or fewer than two sensors are shared, otherwise
`max 0 (1 − mean |rssi_a − rssi_b| / 20)` over the common sensors. -/
def rssi_vector_score (S : MACStitcher) (mac_a_addr mac_b_addr : String)
    (overlap_time : Option ℤ) : ℚ :=
  match S.rssi_data, overlap_time with
  | some rd, some t =>
    match rd.find? (fun e => e.1 = (t, mac_a_addr)), rd.find? (fun e => e.1 = (t, mac_b_addr)) with
    | some (_, rssi_a), some (_, rssi_b) =>
      let common_swards := (dictKeys rssi_a).filter (fun sw => sw ∈ dictKeys rssi_b)
      if 2 ≤ common_swards.length then
        let rssi_diffs := common_swards.map fun sw =>
          |((dictGet rssi_a sw).getD 0) - ((dictGet rssi_b sw).getD 0)|
        max 0 (1 - meanQ rssi_diffs / 20)
      else 0
    | _, _ => 0
  | _, _ => 0

/-- The weighted sum of `calculate_similarity` past the RSSI early exit:
temporal 0.15, spatial 0.15, positional-pattern 0.05, movement 0.05, and the
given signal score at weight 0.60. -/
noncomputable def fullScore (S : MACStitcher) (rssi_score : ℝ) (mac_a mac_b : Feature)
    (time_gap : ℤ) : ℝ :=
  let temporal_score : ℝ := ((max 0 (1 - |(time_gap : ℚ)| / S.time_window) : ℚ) : ℝ)
  let spatial_distance : ℝ :=
    Real.sqrt (((mac_b.first_x - mac_a.last_x : ℚ) : ℝ) ^ 2 +
      ((mac_b.first_y - mac_a.last_y : ℚ) : ℝ) ^ 2)
  let spatial_score : ℝ := max 0 (1 - spatial_distance / 100)
  let mean_distance : ℝ :=
    Real.sqrt (((mac_b.mean_x - mac_a.mean_x : ℚ) : ℝ) ^ 2 +
      ((mac_b.mean_y - mac_a.mean_y : ℚ) : ℝ) ^ 2)
  let pattern_score : ℝ := max 0 (1 - mean_distance / 100)
  let std_diff : ℝ := |mac_a.std_x - mac_b.std_x| + |mac_a.std_y - mac_b.std_y|
  let movement_score : ℝ := max 0 (1 - std_diff / 50)
  0.60 * rssi_score + 0.15 * temporal_score + 0.15 * spatial_score +
    0.05 * pattern_score + 0.05 * movement_score

/-- `MACStitcher.calculate_similarity`: in fast mode the signal term is the
fixed value 0.7; otherwise the signal-vector term is computed and, when below
0.5, the function returns `rssi_score * 0.5` immediately. -/
noncomputable def calculate_similarity (S : MACStitcher) (mac_a_addr mac_b_addr : String)
    (mac_a mac_b : Feature) (time_gap : ℤ) (overlap_time : Option ℤ) : ℝ :=
  if S.fast_mode then fullScore S 0.7 mac_a mac_b time_gap
  else
    let rssi_score := rssi_vector_score S mac_a_addr mac_b_addr overlap_time
    if rssi_score < 1/2 then (rssi_score : ℝ) * 0.5
    else fullScore S (rssi_score : ℝ) mac_a mac_b time_gap

open Classical in
/-- The scoring loop of `link_macs`: score each candidate against the
features dictionary and keep those with `score >= threshold`, in order.
`none` models the `KeyError` of a candidate identifier absent from the
feature table (never reached from `stitch`). -/
noncomputable def score_candidates (S : MACStitcher) (features_df : List Feature) :
    List Candidate → Option (List (String × String × ℝ))
  | [] => some []
  | (mac_a, mac_b, time_gap, overlap_time) :: cs =>
    match featureDict features_df mac_a, featureDict features_df mac_b with
    | some fa, some fb =>
      match score_candidates S features_df cs with
      | some rest =>
        let score := calculate_similarity S mac_a mac_b fa fb time_gap (some overlap_time)
        some (if S.threshold ≤ score then (mac_a, mac_b, score) :: rest else rest)
      | none => none
    | _, _ => none

open Classical in
/-- One step of the best-link loop of `link_macs`: keep the candidate link
for its source unless a link with a strictly smaller score is already kept
(a strictly better score replaces in place, as a Python dict update does). -/
noncomputable def mac_next_step (m : List (String × (String × ℝ)))
    (e : String × String × ℝ) : List (String × (String × ℝ)) :=
  match lookupAssoc m e.1 with
  | none => updateAssoc m e.1 (e.2.1, e.2.2)
  | some (_, s0) => if s0 < e.2.2 then updateAssoc m e.1 (e.2.1, e.2.2) else m

/-- The best-link loop of `link_macs`: for each source identifier keep its
single best-scoring outgoing link, first-seen order on ties. -/
noncomputable def mac_next_fold (scored : List (String × String × ℝ)) :
    List (String × (String × ℝ)) :=
  scored.foldl mac_next_step []

/-- State of the journey-assignment loop of `link_macs`.  Journey labels are
kept as the bare counter: the source's `f"J{journey_id:04d}"` formatting is
injective, so nothing a claim mentions depends on it. -/
structure LinkState where
  mac_to_journey : List (String × ℕ)
  journey_id : ℕ
  assigned : List String

/-- One step of the journey-assignment loop, for one `mac_next` entry
`(mac_a, (mac_b, score))`: give `mac_a` a fresh journey unless assigned,
then put `mac_b` into `mac_a`'s journey unless assigned. -/
def assignPair (st : LinkState) (e : String × (String × ℝ)) : LinkState :=
  let mac_a := e.1
  let mac_b := e.2.1
  let st1 :=
    if mac_a ∈ st.assigned then st
    else
      { mac_to_journey := st.mac_to_journey ++ [(mac_a, st.journey_id + 1)]
        journey_id := st.journey_id + 1
        assigned := st.assigned ++ [mac_a] }
  if mac_b ∈ st1.assigned then st1
  else
    { mac_to_journey :=
        st1.mac_to_journey ++ [(mac_b, (lookupAssoc st1.mac_to_journey mac_a).getD 0)]
      journey_id := st1.journey_id
      assigned := st1.assigned ++ [mac_b] }

/-- The trailing loop of `link_macs`: every still-unassigned identifier of
the feature table gets a fresh singleton journey. -/
def assignUnlinked : LinkState → List String → List (String × ℕ)
  | st, [] => st.mac_to_journey
  | st, m :: ms =>
    assignUnlinked
      { mac_to_journey := st.mac_to_journey ++ [(m, st.journey_id + 1)]
        journey_id := st.journey_id + 1
        assigned := st.assigned ++ [m] } ms

/-- `MACStitcher.link_macs`: score candidates, keep per-source best links,
assign journeys along them, then give every unlinked identifier its own
journey. -/
noncomputable def link_macs (S : MACStitcher) (features_df : List Feature)
    (candidates : List Candidate) : Option (List (String × ℕ)) :=
  (score_candidates S features_df candidates).map fun scored =>
    let mac_next := mac_next_fold scored
    let st := mac_next.foldl assignPair ⟨[], 0, []⟩
    let all_macs := uniqueFirst (features_df.map Feature.mac_address)
    let unlinked := all_macs.filter (fun m => m ∉ st.assigned)
    assignUnlinked st unlinked

/-- Row of the `create_journeys` result.  `journey_id = none` models the
`NaN` a mapping miss would produce (never reached from `stitch`). -/
structure Journey where
  journey_id : Option ℕ
  mac_count : ℕ
  macs : List String
  device_type : ℤ
  first_time : ℤ
  last_time : ℤ
  lifetime : ℤ
  total_appearances : ℕ
deriving DecidableEq, Repr

/-- `MACStitcher.create_journeys`: group the positions by mapped journey and
aggregate each group. -/
def create_journeys (positions_df : List Pos) (mac_to_journey : List (String × ℕ)) :
    List Journey :=
  let pj := positions_df.map fun p => (p, lookupAssoc mac_to_journey p.mac_address)
  (uniqueFirst (pj.map Prod.snd)).map fun jid =>
    let journey_data := (pj.filter (fun q => q.2 = jid)).map Prod.fst
    let macs := uniqueFirst (journey_data.map Pos.mac_address)
    let first_time := minD (journey_data.map Pos.time_index)
    let last_time := maxD (journey_data.map Pos.time_index)
    { journey_id := jid
      mac_count := macs.length
      macs := macs
      device_type := (journey_data.map Pos.device_type).headD 0
      first_time := first_time
      last_time := last_time
      lifetime := (last_time - first_time) * 10
      total_appearances := journey_data.length }

/-- `MACStitcher.stitch`: features, candidates, linking, journeys. -/
noncomputable def stitch (S : MACStitcher) (positions_df : List Pos) :
    Option (List Feature × List (String × ℕ) × List Journey) :=
  let features_df := extract_features positions_df
  let candidates := generate_candidates S features_df positions_df
  (link_macs S features_df candidates).map fun mac_to_journey =>
    (features_df, mac_to_journey, create_journeys positions_df mac_to_journey)

/-- Invariant of the journey-assignment state of `link_macs`: the assigned
set is exactly the key set of the mapping, keys are unique, and every issued
journey id is bounded by the counter. -/
def LinkInv (st : LinkState) : Prop :=
  (∀ m, m ∈ st.assigned ↔ (lookupAssoc st.mac_to_journey m).isSome) ∧
  (st.mac_to_journey.map Prod.fst).Nodup ∧
  (∀ e ∈ st.mac_to_journey, e.2 ≤ st.journey_id)

/-- A feature row of device class 1 with every numeric field zero (and one
appearance): any two such rows are perfectly aligned for `fullScore`. -/
def flatFeature (mac : String) : Feature :=
  ⟨mac, 0, 0, 1, 0, 0, 0, 0, 0, 0, 0, 0, 1, 0, 0⟩

/-- Concrete stitcher for the linking examples: fast mode, no raw data,
time window 60, threshold 0.6. -/
noncomputable def C5S : MACStitcher := MACStitcher.init 60 (3/5) none true

/-- Three zeroed same-class feature rows. -/
def C5features : List Feature := [flatFeature "a1", flatFeature "a2", flatFeature "b"]

/-- Two candidate links aiming at the same target identifier. -/
def C5candidates : List Candidate := [("a1", "b", 0, 0), ("a2", "b", 0, 0)]

/-! ## Theorems -/

/-! ### C8: distance conversion is monotone and clamped -/

/-- **C8**: `rssi_to_distance` is monotonically non-increasing (a stronger
signal never maps to a larger distance), its value always lies in
`[2.0, 10.0]`, every signal ≥ −60 maps to 2.0, every signal ≤ −80 maps to
10.0, and strictly between −80 and −60 it is the linear interpolation
`2 + (10 − 2)·(−60 − s)/20`. -/
theorem C8_rssi_to_distance_monotone_clamped (s1 s2 : ℚ) :
    (s2 < s1 → rssi_to_distance s1 ≤ rssi_to_distance s2) ∧
    2 ≤ rssi_to_distance s1 ∧ rssi_to_distance s1 ≤ 10 ∧
    (-60 ≤ s1 → rssi_to_distance s1 = 2) ∧
    (s1 ≤ -80 → rssi_to_distance s1 = 10) ∧
    (-80 < s1 → s1 < -60 → rssi_to_distance s1 = 2 + (10 - 2) * (-60 - s1) / 20) := by
  unfold rssi_to_distance
  refine ⟨?_, ?_, ?_, ?_, ?_, ?_⟩ <;> split_ifs <;> intros <;> first | rfl | linarith

/-- Witness for C8 at the concrete signals −70 > −75: monotone there, and −70
is in the interpolation regime with the claimed formula. -/
theorem C8_witness :
    rssi_to_distance (-70) ≤ rssi_to_distance (-75) ∧
    rssi_to_distance (-70) = 2 + (10 - 2) * (-60 - (-70)) / 20 :=
  ⟨(C8_rssi_to_distance_monotone_clamped (-70) (-75)).1 (by norm_num),
   (C8_rssi_to_distance_monotone_clamped (-70) (-75)).2.2.2.2.2 (by norm_num) (by norm_num)⟩

/-! ### C9: constructors do not validate their parameters -/

/-- **C9** counterexample: the claim says construction with a similarity
threshold outside `[0, 1]` or a negative time window fails at construction
time.  It does not: `MACStitcher.__init__` with `time_window = −5` and
`threshold = 3/2`, and `TrafficAnalyzer.__init__` with
`pass_by_threshold_minutes = −2`, construct normally and store the invalid
values verbatim. -/
theorem C9_counterexample :
    (MACStitcher.init (-5) (3/2) none false).time_window = -5 ∧
    (MACStitcher.init (-5) (3/2) none false).threshold = 3/2 ∧
    (TrafficAnalyzer.init (-2) 6 (-75) (-85) 10).pass_by_threshold = -2 :=
  ⟨rfl, rfl, rfl⟩

/-- **C9** amended: construction of the core components is total and
validation-free — every argument, valid or not, is accepted and stored
unchanged (misuse is not rejected eagerly). -/
theorem C9_construction_total_and_unvalidated (tw : ℚ) (thr : ℝ)
    (raw : Option (List Raw)) (fm : Bool) (m : ℚ) (n : ℕ) (ti ta : ℚ) (tu : ℤ) :
    (MACStitcher.init tw thr raw fm).time_window = tw ∧
    (MACStitcher.init tw thr raw fm).threshold = thr ∧
    (MACStitcher.init tw thr raw fm).fast_mode = fm ∧
    (TrafficAnalyzer.init m n ti ta tu).pass_by_threshold = m ∧
    (TrafficAnalyzer.init m n ti ta tu).min_detections = n ∧
    (TrafficAnalyzer.init m n ti ta tu).rssi_threshold_iphone = ti ∧
    (TrafficAnalyzer.init m n ti ta tu).rssi_threshold_android = ta :=
  ⟨rfl, rfl, rfl, rfl, rfl, rfl, rfl⟩

/-! ### C7: conversion rate bounds and empty input -/

/-- **C7**: `calculate_conversion_rate` always returns a conversion rate in
`[0, 1]` with `pass_by_count + visit_count = total_traffic`, and on empty
input — including the classification of an empty detection table — it
returns exactly zero counts and rate `0.0` (no exception, no `NaN`; the
division is guarded by the `total_traffic > 0` test). -/
theorem C7_conversion_rate_bounds (traffic_df : List TrafficRow) (A : TrafficAnalyzer) :
    (0 ≤ (calculate_conversion_rate traffic_df).conversion_rate ∧
      (calculate_conversion_rate traffic_df).conversion_rate ≤ 1) ∧
    (calculate_conversion_rate traffic_df).pass_by_count +
        (calculate_conversion_rate traffic_df).visit_count =
      (calculate_conversion_rate traffic_df).total_traffic ∧
    calculate_conversion_rate [] =
      ⟨0, 0, 0, 0, 0, 0⟩ ∧
    calculate_conversion_rate (classify_traffic A []) = ⟨0, 0, 0, 0, 0, 0⟩ := by
  refine ⟨?_, ?_, rfl, rfl⟩
  · unfold calculate_conversion_rate
    split_ifs with h
    · norm_num
    · set v := (traffic_df.filter (fun r => r.traffic_type = "visit")).length with hv
      set p := (traffic_df.filter (fun r => r.traffic_type = "pass_by")).length with hp
      simp only
      split_ifs with htot
      · constructor
        · positivity
        · rw [div_le_one (by exact_mod_cast htot)]
          exact_mod_cast Nat.le_add_left v p
      · norm_num
  · unfold calculate_conversion_rate
    split_ifs <;> rfl

/-! ### C10: hourly conversion analysis -/

/-- A non-empty list has a non-empty `uniqueFirst`. -/
theorem uniqueFirst_ne_nil {α : Type} [DecidableEq α] {l : List α} (h : l ≠ []) :
    uniqueFirst l ≠ [] := by
  cases l with
  | nil => exact absurd rfl h
  | cons a l => simp [uniqueFirst, uniqueFirstAux]

/-- **C10** counterexample: the claim computes the hour bucket as
`floor(time_index × 10 / 3600)`, but the source uses `astype(int)`, i.e.
truncation toward zero.  For the single record at `time_index = −1` the
floor-hour is −1, so per the claim hour 0 has no records and must report
zero traffic; the code puts the record into hour 0 and reports traffic 1. -/
theorem C10_counterexample :
    ((hourly_conversion_analysis defaultAnalyzer [⟨-1, "m", 1, 0, 0⟩]).get? 0 =
      some ⟨0, 1, 1, 0, 0⟩) ∧
    ([(⟨-1, "m", 1, 0, 0⟩ : Pos)].filter
        (fun p => (⌊((p.time_index * defaultAnalyzer.time_unit : ℤ) : ℚ) / 3600⌋ : ℤ) = 0))
      = [] := by
  constructor
  · decide
  · rw [List.filter_cons, List.filter_nil]
    have h1 : ¬ ((⌊(((-1 : ℤ) * defaultAnalyzer.time_unit : ℤ) : ℚ) / 3600⌋ : ℤ) = 0) := by
      show ¬ ((⌊(((-1 : ℤ) * (10 : ℤ) : ℤ) : ℚ) / 3600⌋ : ℤ) = 0)
      norm_num
    simp [h1]
    intro hc
    exfalso
    norm_num [defaultAnalyzer, TrafficAnalyzer.init] at hc

/-- **C10** amended (the hour bucket is truncation toward zero —
`astype(int)` — which agrees with the claimed floor exactly on non-negative
`time_index`): for every non-empty positions table the analysis has exactly
24 rows; row `hr` carries hour `hr`, and its counts and rate are those of the
legacy dwell-span classification (`classify_traffic`, not the RSSI rule)
applied to the records of that hour alone — in particular hours with no
records report zero traffic, zero counts and rate 0. -/
theorem C10_hourly_rows (positions_df : List Pos) (h : positions_df ≠ []) :
    (∀ p : Pos, hourOf defaultAnalyzer p = ratTrunc (((p.time_index * 10 : ℤ) : ℚ) / 3600)) ∧
    (hourly_conversion_analysis defaultAnalyzer positions_df).length = 24 ∧
    ∀ hr : ℕ, hr < 24 →
      ∃ row : HourlyRow, ∃ traffic : List TrafficRow,
        (hourly_conversion_analysis defaultAnalyzer positions_df).get? hr = some row ∧
        traffic = classify_traffic defaultAnalyzer
          (positions_df.filter (fun p => hourOf defaultAnalyzer p = (hr : ℤ))) ∧
        row.hour = hr ∧
        row.pass_by_count = (traffic.filter (fun r => r.traffic_type = "pass_by")).length ∧
        row.visit_count = (traffic.filter (fun r => r.traffic_type = "visit")).length ∧
        row.total_traffic = row.pass_by_count + row.visit_count ∧
        row.conversion_rate =
          (if 0 < row.total_traffic then (row.visit_count : ℚ) / row.total_traffic else 0) := by
  have hmain : hourly_conversion_analysis defaultAnalyzer positions_df =
      (List.range 24).map fun (hour : ℕ) =>
        let hour_data := positions_df.filter (fun p => hourOf defaultAnalyzer p = (hour : ℤ))
        if hour_data = [] then ⟨hour, 0, 0, 0, 0⟩
        else
          let c := calculate_conversion_rate (classify_traffic defaultAnalyzer hour_data)
          ⟨hour, c.total_traffic, c.pass_by_count, c.visit_count, c.conversion_rate⟩ := by
    unfold hourly_conversion_analysis
    simp [h]
  refine ⟨fun p => rfl, by rw [hmain]; simp, ?_⟩
  intro hr hhr
  have hget : (hourly_conversion_analysis defaultAnalyzer positions_df).get? hr =
      some (let hour_data := positions_df.filter
              (fun p => hourOf defaultAnalyzer p = (hr : ℤ))
            if hour_data = [] then ⟨hr, 0, 0, 0, 0⟩
            else
              let c := calculate_conversion_rate (classify_traffic defaultAnalyzer hour_data)
              ⟨hr, c.total_traffic, c.pass_by_count, c.visit_count, c.conversion_rate⟩) := by
    rw [hmain, List.get?_map, List.get?_range hhr]
    rfl
  by_cases hempty :
      positions_df.filter (fun p => hourOf defaultAnalyzer p = (hr : ℤ)) = []
  · rw [if_pos hempty] at hget
    refine ⟨⟨hr, 0, 0, 0, 0⟩, classify_traffic defaultAnalyzer
      (positions_df.filter (fun p => hourOf defaultAnalyzer p = (hr : ℤ))), hget, rfl,
      rfl, ?_, ?_, rfl, rfl⟩
    · rw [hempty]; rfl
    · rw [hempty]; rfl
  · rw [if_neg hempty] at hget
    have htrne : classify_traffic defaultAnalyzer
        (positions_df.filter (fun p => hourOf defaultAnalyzer p = (hr : ℤ))) ≠ [] := by
      intro hcon
      unfold classify_traffic at hcon
      rw [if_neg hempty] at hcon
      have h1 := List.map_eq_nil.mp hcon
      have h2 : (positions_df.filter
          (fun p => hourOf defaultAnalyzer p = (hr : ℤ))).map Pos.mac_address ≠ [] := by
        simpa [List.map_eq_nil] using hempty
      exact uniqueFirst_ne_nil h2 h1
    set traffic := classify_traffic defaultAnalyzer
      (positions_df.filter (fun p => hourOf defaultAnalyzer p = (hr : ℤ))) with htraf
    have hconv : calculate_conversion_rate traffic =
        { total_traffic := (traffic.filter (fun r => r.traffic_type = "pass_by")).length +
            (traffic.filter (fun r => r.traffic_type = "visit")).length
          pass_by_count := (traffic.filter (fun r => r.traffic_type = "pass_by")).length
          visit_count := (traffic.filter (fun r => r.traffic_type = "visit")).length
          conversion_rate :=
            if 0 < (traffic.filter (fun r => r.traffic_type = "pass_by")).length +
                (traffic.filter (fun r => r.traffic_type = "visit")).length then
              ((traffic.filter (fun r => r.traffic_type = "visit")).length : ℚ) /
                (((traffic.filter (fun r => r.traffic_type = "pass_by")).length +
                  (traffic.filter (fun r => r.traffic_type = "visit")).length : ℕ) : ℚ)
            else 0
          avg_dwell_pass_by :=
            if 0 < (traffic.filter (fun r => r.traffic_type = "pass_by")).length then
              meanQ ((traffic.filter (fun r => r.traffic_type = "pass_by")).map
                TrafficRow.dwell_time_minutes)
            else 0
          avg_dwell_visit :=
            if 0 < (traffic.filter (fun r => r.traffic_type = "visit")).length then
              meanQ ((traffic.filter (fun r => r.traffic_type = "visit")).map
                TrafficRow.dwell_time_minutes)
            else 0 } := by
      unfold calculate_conversion_rate
      rw [if_neg htrne]
    rw [hconv] at hget
    exact ⟨_, traffic, hget, rfl, rfl, rfl, rfl, rfl, by push_cast; rfl⟩

/-- Witness for C10 at a one-record table: the analysis indeed has 24 rows. -/
theorem C10_witness :
    (hourly_conversion_analysis defaultAnalyzer [⟨0, "m", 1, 0, 0⟩]).length = 24 :=
  (C10_hourly_rows [⟨0, "m", 1, 0, 0⟩] (by simp)).2.1

/-! ### Permutation and lookup lemmas for the classifier -/

/-- `insertLe` inserts, up to permutation. -/
theorem insertLe_perm {α : Type} (le : α → α → Bool) (a : α) (l : List α) :
    List.Perm (insertLe le a l) (a :: l) := by
  induction l with
  | nil => rfl
  | cons b t ih =>
    unfold insertLe
    by_cases h : le a b
    · rw [if_pos h]
    · rw [if_neg h]
      exact (ih.cons b).trans (List.Perm.swap a b t)

/-- `insSort` sorts, up to permutation. -/
theorem insSort_perm {α : Type} (le : α → α → Bool) (l : List α) :
    List.Perm (insSort le l) l := by
  induction l with
  | nil => rfl
  | cons a t ih => exact (insertLe_perm le a (insSort le t)).trans (ih.cons a)

/-- Membership in an `insertLe` result. -/
theorem insertLe_mem {α : Type} {le : α → α → Bool} {a x : α} {l : List α} :
    x ∈ insertLe le a l ↔ x = a ∨ x ∈ l := by
  rw [(insertLe_perm le a l).mem_iff]
  simp

/-- `insertLe` preserves sortedness for a total transitive comparison. -/
theorem insertLe_pairwise {α : Type} {le : α → α → Bool}
    (htot : ∀ a b, le a b = true ∨ le b a = true)
    (htrans : ∀ a b c, le a b = true → le b c = true → le a c = true)
    (a : α) {l : List α} (hl : l.Pairwise (fun x y => le x y = true)) :
    (insertLe le a l).Pairwise (fun x y => le x y = true) := by
  induction l with
  | nil => simp [insertLe]
  | cons b t ih =>
    unfold insertLe
    rcases List.pairwise_cons.mp hl with ⟨hb, ht⟩
    by_cases h : le a b
    · rw [if_pos h]
      refine List.pairwise_cons.mpr ⟨?_, hl⟩
      intro x hx
      rcases List.mem_cons.mp hx with rfl | hx
      · exact h
      · exact htrans a b x h (hb x hx)
    · rw [if_neg h]
      refine List.pairwise_cons.mpr ⟨?_, ih ht⟩
      intro x hx
      rcases insertLe_mem.mp hx with hxa | hx
      · rw [hxa]
        rcases htot a b with h' | h'
        · exact absurd h' h
        · exact h'
      · exact hb x hx

/-- `insSort` produces a pairwise-sorted list for a total transitive
comparison. -/
theorem insSort_pairwise {α : Type} {le : α → α → Bool}
    (htot : ∀ a b, le a b = true ∨ le b a = true)
    (htrans : ∀ a b c, le a b = true → le b c = true → le a c = true)
    (l : List α) : (insSort le l).Pairwise (fun x y => le x y = true) := by
  induction l with
  | nil => simp [insSort]
  | cons a t ih => exact insertLe_pairwise htot htrans a ih

/-- `sortByTime` is a permutation of its input. -/
theorem sortByTime_perm (l : List Raw) : List.Perm (sortByTime l) l :=
  insSort_perm _ l

/-- `sortByTime` output is pairwise non-decreasing in `time_index`. -/
theorem sortByTime_pairwise (l : List Raw) :
    (sortByTime l).Pairwise (fun x y => x.time_index ≤ y.time_index) := by
  have h := @insSort_pairwise Raw (fun a b : Raw => decide (a.time_index ≤ b.time_index))
    (fun a b => by by_cases h : a.time_index ≤ b.time_index <;> simp [h] <;> omega)
    (fun a b c h1 h2 => by
      simp only [decide_eq_true_eq] at h1 h2 ⊢
      exact le_trans h1 h2) l
  exact h.imp (by simp)

/-- The mean is invariant under permutation. -/
theorem meanQ_perm {l l' : List ℚ} (h : List.Perm l l') : meanQ l = meanQ l' := by
  unfold meanQ
  rw [h.sum_eq, h.length_eq]

/-- The window test of the slow classifier only depends on the multiset of
rows it scans. -/
theorem visit_window_perm (C : VisitorClassifier) (threshold : ℚ) (t : ℤ)
    {l l' : List Raw} (h : List.Perm l l') :
    visit_window C l threshold t = visit_window C l' threshold t := by
  have hw := h.filter
    (fun r => decide (t ≤ r.time_index ∧ r.time_index < t + C.min_dwell_time))
  simp only [visit_window]
  rw [hw.length_eq, meanQ_perm (hw.map Raw.rssi)]

/-- Membership of `uniqueFirstAux`. -/
theorem mem_uniqueFirstAux {α : Type} [DecidableEq α] {a : α} :
    ∀ {l seen : List α}, a ∈ uniqueFirstAux seen l ↔ a ∈ l ∧ a ∉ seen := by
  intro l
  induction l with
  | nil => intro seen; simp [uniqueFirstAux]
  | cons b t ih =>
    intro seen
    unfold uniqueFirstAux
    by_cases hb : b ∈ seen
    · rw [if_pos hb, ih]
      constructor
      · rintro ⟨h1, h2⟩; exact ⟨List.mem_cons_of_mem _ h1, h2⟩
      · rintro ⟨h1, h2⟩
        rcases List.mem_cons.mp h1 with rfl | h1
        · exact absurd hb h2
        · exact ⟨h1, h2⟩
    · rw [if_neg hb, List.mem_cons, ih]
      constructor
      · rintro (rfl | ⟨h1, h2⟩)
        · exact ⟨List.mem_cons_self _ _, hb⟩
        · refine ⟨List.mem_cons_of_mem _ h1, fun hs => h2 (List.mem_cons_of_mem _ hs)⟩
      · rintro ⟨h1, h2⟩
        rcases List.mem_cons.mp h1 with rfl | h1
        · exact Or.inl rfl
        · by_cases hab : a = b
          · exact Or.inl hab
          · exact Or.inr ⟨h1, fun hs => by
              rcases List.mem_cons.mp hs with h | h
              · exact hab h
              · exact h2 h⟩

/-- Membership of `uniqueFirst`. -/
theorem mem_uniqueFirst {α : Type} [DecidableEq α] {a : α} {l : List α} :
    a ∈ uniqueFirst l ↔ a ∈ l := by
  rw [uniqueFirst, mem_uniqueFirstAux]
  simp

/-- `uniqueFirstAux` has no duplicates. -/
theorem nodup_uniqueFirstAux {α : Type} [DecidableEq α] :
    ∀ (l seen : List α), (uniqueFirstAux seen l).Nodup := by
  intro l
  induction l with
  | nil => intro seen; simp [uniqueFirstAux]
  | cons b t ih =>
    intro seen
    unfold uniqueFirstAux
    by_cases hb : b ∈ seen
    · rw [if_pos hb]; exact ih seen
    · rw [if_neg hb]
      refine List.nodup_cons.mpr ⟨?_, ih (b :: seen)⟩
      intro hmem
      exact (mem_uniqueFirstAux.mp hmem).2 (List.mem_cons_self _ _)

/-- `uniqueFirst` has no duplicates. -/
theorem nodup_uniqueFirst {α : Type} [DecidableEq α] (l : List α) :
    (uniqueFirst l).Nodup :=
  nodup_uniqueFirstAux l []

/-- Looking a key up in a table built by mapping a row constructor over a key
list finds exactly the constructed row of the first matching key. -/
theorem find?_map_eq {β : Type} (K : List String) (f : String → β) (proj : β → String)
    (hp : ∀ m, proj (f m) = m) (m : String) :
    (K.map f).find? (fun b => proj b = m) = if m ∈ K then some (f m) else none := by
  induction K with
  | nil => simp
  | cons k t ih =>
    simp only [List.map_cons, List.find?_cons]
    by_cases hk : k = m
    · subst hk
      simp [hp]
    · have : (decide (proj (f k) = m)) = false := by
        simp [hp, hk]
      rw [this, ih]
      simp [List.mem_cons, hk, Ne.symm hk]

/-! ### C2: the slow classifier implements the sliding-window rule -/

/-- **C2**: with default parameters, `classify_visitors` labels an identifier
`real_visitor` iff some detection of that identifier anchors a 2-minute
window (12 `time_index` units) containing at least 6 of the identifier's
detections whose mean RSSI strictly exceeds the device-class threshold
(−75 for class 1, −85 for class 10, −80 otherwise) — so with threshold −75 a
qualifying window of mean −74 yields a visit and one of mean −76 does not. -/
theorem C2_classify_visitors_window_rule (rawdata : List Raw) (m : String) (c : VisitorRow)
    (hc : (classify_visitors defaultClassifier rawdata).find? (fun r => r.mac_address = m) =
      some c) :
    c.visitor_type = "real_visitor" ↔
      ∃ r ∈ rawdata, r.mac_address = m ∧
        (6 ≤ ((rawdata.filter (fun q => q.mac_address = m)).filter
            (fun q => r.time_index ≤ q.time_index ∧ q.time_index < r.time_index + 12)).length ∧
        (if c.device_type = 1 then (-75 : ℚ) else if c.device_type = 10 then -85 else -80) <
          meanQ (((rawdata.filter (fun q => q.mac_address = m)).filter
            (fun q => r.time_index ≤ q.time_index ∧
              q.time_index < r.time_index + 12)).map Raw.rssi)) := by
  unfold classify_visitors at hc
  rw [find?_map_eq _ _ VisitorRow.mac_address (fun _ => rfl) m] at hc
  by_cases hm : m ∈ uniqueFirst (rawdata.map Raw.mac_address)
  · rw [if_pos hm] at hc
    have hcc := Option.some.inj hc
    subst hcc
    set mac_data := sortByTime (rawdata.filter (fun r => r.mac_address = m)) with hmd
    have hperm : List.Perm mac_data (rawdata.filter (fun r => r.mac_address = m)) :=
      sortByTime_perm _
    set dt := (mac_data.map Raw.device_type).headD 0 with hdt
    set thr := if dt ≠ 0 then defaultClassifier.get_rssi_threshold dt
      else DEFAULT_RSSI_THRESHOLD with hthr
    have hthr' : thr = if dt = 1 then (-75 : ℚ) else if dt = 10 then -85 else -80 := by
      rw [hthr]
      unfold VisitorClassifier.get_rssi_threshold DEFAULT_RSSI_THRESHOLD defaultClassifier
      split_ifs <;> first | rfl | omega
    have h1 : (if is_visitor defaultClassifier mac_data thr then "real_visitor"
        else "passer_by") = "real_visitor" ↔
        is_visitor defaultClassifier mac_data thr = true := by
      by_cases hv : is_visitor defaultClassifier mac_data thr
      · simp [hv]
      · simp [hv]
    refine h1.trans ?_
    rw [is_visitor, List.any_eq_true]
    constructor
    · rintro ⟨r, hr, hw⟩
      refine ⟨r, (List.mem_filter.mp (hperm.mem_iff.mp hr)).1,
        by simpa using (List.mem_filter.mp (hperm.mem_iff.mp hr)).2, ?_⟩
      rw [visit_window_perm _ _ _ hperm] at hw
      have := of_decide_eq_true hw
      rcases this with ⟨hlen, hmean⟩
      rw [← hthr']
      exact ⟨hlen, hmean⟩
    · rintro ⟨r, hr, hrm, hlen, hmean⟩
      refine ⟨r, hperm.mem_iff.mpr (List.mem_filter.mpr ⟨hr, by simpa using hrm⟩), ?_⟩
      rw [visit_window_perm _ _ _ hperm]
      rw [← hthr'] at hmean
      exact decide_eq_true ⟨hlen, hmean⟩
  · rw [if_neg hm] at hc
    exact absurd hc (by simp)

/-- Witness for C2 at a six-detection iPhone-class identifier with all
signals at −74 dBm (mean −74 > −75): classified `real_visitor`. -/
theorem C2_witness :
    ∃ c : VisitorRow,
      (classify_visitors defaultClassifier
          [⟨0, "A", "s", -74, 1⟩, ⟨1, "A", "s", -74, 1⟩, ⟨2, "A", "s", -74, 1⟩,
           ⟨3, "A", "s", -74, 1⟩, ⟨4, "A", "s", -74, 1⟩, ⟨5, "A", "s", -74, 1⟩]).find?
        (fun r => r.mac_address = "A") = some c ∧
      c.visitor_type = "real_visitor" := by
  refine ⟨_, rfl, ?_⟩
  refine (C2_classify_visitors_window_rule
    [⟨0, "A", "s", -74, 1⟩, ⟨1, "A", "s", -74, 1⟩, ⟨2, "A", "s", -74, 1⟩,
     ⟨3, "A", "s", -74, 1⟩, ⟨4, "A", "s", -74, 1⟩, ⟨5, "A", "s", -74, 1⟩] "A" _ rfl).mpr ?_
  decide

/-! ### C3: optimized vs unoptimized classification -/

/-- On a list sorted for a relation along which `p` is downward closed,
`takeWhile p` scans out exactly `filter p`. -/
theorem takeWhile_eq_filter_of_pairwise {α : Type} {r : α → α → Prop} {p : α → Bool} :
    ∀ {l : List α}, l.Pairwise r → (∀ x y, r x y → p y = true → p x = true) →
      l.takeWhile p = l.filter p := by
  intro l
  induction l with
  | nil => intro _ _; rfl
  | cons a t ih =>
    intro hp hdc
    rcases List.pairwise_cons.mp hp with ⟨ha, ht⟩
    cases hpa : p a with
    | true => simp [List.takeWhile_cons, List.filter_cons, hpa, ih ht hdc]
    | false =>
      have hnil : t.filter p = [] := List.filter_eq_nil_iff.mpr (fun y hy hpy => by
        have := hdc a y (ha y hy) hpy
        simp [hpa] at this)
      simp [List.takeWhile_cons, List.filter_cons, hpa, hnil]

/-- On a time-sorted detection list with pairwise-distinct times, the fast
window slice (`takeWhile` on the suffix at the anchor, i.e. the
`searchsorted` slice) equals the slow filter window over the whole list. -/
theorem fast_window_eq (d : ℤ) (l₁ : List Raw) (r : Raw) (l₂ : List Raw)
    (hpair : (l₁ ++ r :: l₂).Pairwise (fun x y => x.time_index ≤ y.time_index))
    (hnodup : ((l₁ ++ r :: l₂).map Raw.time_index).Nodup) :
    (r :: l₂).takeWhile (fun q => q.time_index < r.time_index + d) =
      (l₁ ++ r :: l₂).filter
        (fun q => r.time_index ≤ q.time_index ∧ q.time_index < r.time_index + d) := by
  rcases List.pairwise_append.mp hpair with ⟨hp₁, hp₂, hcross⟩
  rw [List.filter_append]
  have h₁ : l₁.filter
      (fun q => decide (r.time_index ≤ q.time_index ∧ q.time_index < r.time_index + d)) = [] := by
    refine List.filter_eq_nil_iff.mpr ?_
    intro x hx
    have hle : x.time_index ≤ r.time_index := hcross x hx r (List.mem_cons_self r l₂)
    have hne : x.time_index ≠ r.time_index := by
      rw [List.map_append] at hnodup
      rcases List.nodup_append.mp hnodup with ⟨_, _, hdisj⟩
      intro he
      exact hdisj (List.mem_map_of_mem Raw.time_index hx)
        (by rw [he]; exact List.mem_cons_self _ _)
    simp only [decide_eq_true_eq, not_and]
    intro hge
    omega
  rw [h₁, List.nil_append]
  have hcongr : ∀ q ∈ r :: l₂,
      (decide (r.time_index ≤ q.time_index ∧ q.time_index < r.time_index + d)) =
        (decide (q.time_index < r.time_index + d)) := by
    intro q hq
    have hrq : r.time_index ≤ q.time_index := by
      rcases List.mem_cons.mp hq with h | hq
      · rw [h]
      · exact (List.pairwise_cons.mp hp₂).1 q hq
    simp [hrq]
  rw [List.filter_congr hcongr]
  exact takeWhile_eq_filter_of_pairwise hp₂
    (fun x y hxy hy => decide_eq_true (lt_of_le_of_lt hxy (of_decide_eq_true hy)))

/-- The fast window loop succeeds iff some suffix anchor provides a hit. -/
theorem fastWindowLoop_iff (A : TrafficAnalyzer) (thr : ℚ) :
    ∀ l : List Raw, fastWindowLoop A thr l = true ↔
      ∃ l₁ r l₂, l = l₁ ++ r :: l₂ ∧
        fastWindowHit A thr (r :: l₂) r.time_index = true := by
  intro l
  induction l with
  | nil =>
    simp only [fastWindowLoop]
    constructor
    · intro h; exact absurd h (by simp)
    · rintro ⟨l₁, r, l₂, he, -⟩
      exact absurd he.symm (List.append_ne_nil_of_right_ne_nil l₁ (by simp))
  | cons a t ih =>
    rw [show fastWindowLoop A thr (a :: t) =
      (fastWindowHit A thr (a :: t) a.time_index || fastWindowLoop A thr t) from rfl]
    rw [Bool.or_eq_true, ih]
    constructor
    · rintro (h | ⟨l₁, r, l₂, rfl, hh⟩)
      · exact ⟨[], a, t, rfl, h⟩
      · exact ⟨a :: l₁, r, l₂, rfl, hh⟩
    · rintro ⟨l₁, r, l₂, he, hh⟩
      cases l₁ with
      | nil =>
        simp only [List.nil_append, List.cons.injEq] at he
        rcases he with ⟨rfl, rfl⟩
        exact Or.inl hh
      | cons b l₁' =>
        simp only [List.cons_append, List.cons.injEq] at he
        rcases he with ⟨rfl, rfl⟩
        exact Or.inr ⟨l₁', r, l₂, rfl, hh⟩

/-- The slow loop succeeds iff some detection anchors a qualifying window. -/
theorem is_visitor_iff (C : VisitorClassifier) (l : List Raw) (thr : ℚ) :
    is_visitor C l thr = true ↔ ∃ r ∈ l, visit_window C l thr r.time_index = true := by
  rw [is_visitor, List.any_eq_true]

/-- A fast-loop success needs at least `min_detections` rows. -/
theorem fastWindowLoop_length (A : TrafficAnalyzer) (thr : ℚ) (l : List Raw)
    (h : fastWindowLoop A thr l = true) : A.min_detections ≤ l.length := by
  rcases (fastWindowLoop_iff A thr l).mp h with ⟨l₁, r, l₂, rfl, hh⟩
  have h1 := (of_decide_eq_true hh).1
  calc A.min_detections
      ≤ ((r :: l₂).takeWhile
          (fun q => q.time_index < r.time_index + A.min_dwell_time)).length := h1
    _ ≤ (r :: l₂).length := (List.takeWhile_sublist _).length_le
    _ ≤ (l₁ ++ r :: l₂).length := by simp
 
/-- On a time-sorted list with pairwise-distinct times, the optimized window
loop of `_check_visitor_windows_fast` agrees with the sliding-window loop of
`classify_visitors` (at the shared default window parameters). -/
theorem fast_slow_window_equiv (thr : ℚ) (l : List Raw)
    (hpair : l.Pairwise (fun x y => x.time_index ≤ y.time_index))
    (hnodup : (l.map Raw.time_index).Nodup) :
    fastWindowLoop defaultAnalyzer thr l = true ↔
      is_visitor defaultClassifier l thr = true := by
  have hdA : defaultAnalyzer.min_dwell_time = 12 := by decide
  have hdC : defaultClassifier.min_dwell_time = 12 := rfl
  have hwin : ∀ (l₁ : List Raw) (r : Raw) (l₂ : List Raw), l = l₁ ++ r :: l₂ →
      fastWindowHit defaultAnalyzer thr (r :: l₂) r.time_index =
        visit_window defaultClassifier l thr r.time_index := by
    intro l₁ r l₂ he
    subst he
    simp only [fastWindowHit, visit_window, hdA, hdC]
    rw [fast_window_eq 12 l₁ r l₂ hpair hnodup]
    rfl
  rw [fastWindowLoop_iff, is_visitor_iff]
  constructor
  · rintro ⟨l₁, r, l₂, he, hh⟩
    refine ⟨r, by rw [he]; simp, ?_⟩
    rw [← hwin l₁ r l₂ he]
    exact hh
  · rintro ⟨r, hr, hw⟩
    rcases List.append_of_mem hr with ⟨l₁, l₂, he⟩
    exact ⟨l₁, r, l₂, he, by rw [hwin l₁ r l₂ he]; exact hw⟩

/-- First entries of the device column agree between a list and any
permutation of it when the device type is constant on the list. -/
theorem headD_device_perm {l l' : List Raw} (hperm : List.Perm l l')
    (hconst : ∀ x ∈ l, ∀ y ∈ l, x.device_type = y.device_type) :
    (l.map Raw.device_type).headD 0 = (l'.map Raw.device_type).headD 0 := by
  cases l with
  | nil =>
    rw [hperm.symm.eq_nil]
  | cons a t =>
    cases l' with
    | nil => exact absurd hperm.eq_nil (by simp)
    | cons b t' =>
      have hb : b ∈ a :: t := hperm.symm.subset (List.mem_cons_self b t')
      simpa using hconst a (List.mem_cons_self a t) b hb

/-- **C3** counterexample: the claim says the optimized path labels `visit`
exactly when the sliding-window rule labels `real_visitor`.  On seven
detections of one iPhone-class identifier all at `time_index 0` — the first
at −200 dBm, the rest at −70 dBm — the only sliding window contains all
seven detections with mean ≈ −88.6 < −75, so `classify_visitors` says
`passer_by`; but the fast check also probes the window slice starting at the
second sorted detection (six rows, mean −70 > −75), so
`classify_traffic_with_rssi` says `visit`. -/
theorem C3_counterexample :
    ∃ tr cv,
      (classify_traffic_with_rssi defaultAnalyzer
          [⟨0, "X", "s", -200, 1⟩, ⟨0, "X", "s", -70, 1⟩, ⟨0, "X", "s", -70, 1⟩,
           ⟨0, "X", "s", -70, 1⟩, ⟨0, "X", "s", -70, 1⟩, ⟨0, "X", "s", -70, 1⟩,
           ⟨0, "X", "s", -70, 1⟩]).find? (fun r => r.mac_address = "X") = some tr ∧
      (classify_visitors defaultClassifier
          [⟨0, "X", "s", -200, 1⟩, ⟨0, "X", "s", -70, 1⟩, ⟨0, "X", "s", -70, 1⟩,
           ⟨0, "X", "s", -70, 1⟩, ⟨0, "X", "s", -70, 1⟩, ⟨0, "X", "s", -70, 1⟩,
           ⟨0, "X", "s", -70, 1⟩]).find? (fun r => r.mac_address = "X") = some cv ∧
      tr.traffic_type = "visit" ∧ cv.visitor_type = "passer_by" := by
  exact ⟨_, _, rfl, rfl, by decide, rfl⟩

/-- **C3** amended: (i) unconditionally, an identifier with fewer records
than `min_detections` is classified `pass_by` by the optimized path; (ii) on
tables where each identifier's detections carry pairwise-distinct
`time_index` values and a consistent device type, the optimized
`classify_traffic_with_rssi` labels an identifier `visit` exactly when
`classify_visitors` labels it `real_visitor` (the original claim fails for
repeated `time_index` values, see the counterexample). -/
theorem C3_fast_slow_equivalence :
    (∀ (rawdata : List Raw) (m : String) (tr : RssiTrafficRow),
      (classify_traffic_with_rssi defaultAnalyzer rawdata).find?
        (fun r => r.mac_address = m) = some tr →
      tr.record_count < 6 → tr.traffic_type = "pass_by") ∧
    (∀ rawdata : List Raw,
      (∀ m ∈ rawdata.map Raw.mac_address,
        ((rawdata.filter (fun r => r.mac_address = m)).map Raw.time_index).Nodup) →
      (∀ r ∈ rawdata, ∀ r' ∈ rawdata,
        r.mac_address = r'.mac_address → r.device_type = r'.device_type) →
      ∀ (m : String) (tr : RssiTrafficRow) (cv : VisitorRow),
        (classify_traffic_with_rssi defaultAnalyzer rawdata).find?
          (fun r => r.mac_address = m) = some tr →
        (classify_visitors defaultClassifier rawdata).find?
          (fun r => r.mac_address = m) = some cv →
        (tr.traffic_type = "visit" ↔ cv.visitor_type = "real_visitor")) := by
  constructor
  · intro rawdata m tr hfind hcount
    by_cases hraw : rawdata = []
    · rw [hraw] at hfind
      exact absurd hfind (by simp [classify_traffic_with_rssi])
    · unfold classify_traffic_with_rssi at hfind
      rw [if_neg hraw, find?_map_eq _ _ RssiTrafficRow.mac_address (fun _ => rfl) m] at hfind
      by_cases hm : m ∈ uniqueFirst (rawdata.map Raw.mac_address)
      · rw [if_pos hm] at hfind
        have := Option.some.inj hfind
        subst this
        simp only at hcount ⊢
        rw [if_neg]
        intro hcond
        have h1 := hcond.1
        have h6 : defaultAnalyzer.min_detections = 6 := rfl
        omega
      · rw [if_neg hm] at hfind
        exact absurd hfind (by simp)
  · intro rawdata H1 H2 m tr cv hfindtr hfindcv
    by_cases hraw : rawdata = []
    · rw [hraw] at hfindtr
      exact absurd hfindtr (by simp [classify_traffic_with_rssi])
    unfold classify_traffic_with_rssi at hfindtr
    rw [if_neg hraw, find?_map_eq _ _ RssiTrafficRow.mac_address (fun _ => rfl) m] at hfindtr
    unfold classify_visitors at hfindcv
    rw [find?_map_eq _ _ VisitorRow.mac_address (fun _ => rfl) m] at hfindcv
    by_cases hm : m ∈ uniqueFirst (rawdata.map Raw.mac_address)
    swap
    · rw [if_neg hm] at hfindtr
      exact absurd hfindtr (by simp)
    rw [if_pos hm] at hfindtr hfindcv
    have htr := Option.some.inj hfindtr
    have hcv := Option.some.inj hfindcv
    subst htr
    subst hcv
    set group := rawdata.filter (fun r => r.mac_address = m) with hgroup
    set sorted := sortByTime group with hsorted
    have hperm : List.Perm sorted group := sortByTime_perm group
    have hpair : sorted.Pairwise (fun x y => x.time_index ≤ y.time_index) :=
      sortByTime_pairwise group
    have hndt : (sorted.map Raw.time_index).Nodup := by
      have h1 := H1 m (mem_uniqueFirst.mp hm)
      exact ((hperm.map Raw.time_index).nodup_iff).mpr h1
    have hconst : ∀ x ∈ group, ∀ y ∈ group, x.device_type = y.device_type := by
      intro x hx y hy
      exact H2 x (List.mem_filter.mp hx).1 y (List.mem_filter.mp hy).1
        (by
          have h1 := of_decide_eq_true (List.mem_filter.mp hx).2
          have h2 := of_decide_eq_true (List.mem_filter.mp hy).2
          rw [h1, h2])
    have hdt : (sorted.map Raw.device_type).headD 0 = (group.map Raw.device_type).headD 0 :=
      headD_device_perm hperm (fun x hx y hy =>
        hconst x (hperm.subset hx) y (hperm.subset hy))
    set dt := (group.map Raw.device_type).headD 0 with hdtv
    have hthr :
        (if dt = 1 then defaultAnalyzer.rssi_threshold_iphone
          else if dt = 10 then defaultAnalyzer.rssi_threshold_android
          else DEFAULT_RSSI_THRESHOLD) =
        (if dt ≠ 0 then defaultClassifier.get_rssi_threshold dt
          else DEFAULT_RSSI_THRESHOLD) := by
      unfold VisitorClassifier.get_rssi_threshold defaultClassifier defaultAnalyzer
        TrafficAnalyzer.init DEFAULT_RSSI_THRESHOLD
      split_ifs <;> first | rfl | omega
    set thr := (if dt = 1 then defaultAnalyzer.rssi_threshold_iphone
      else if dt = 10 then defaultAnalyzer.rssi_threshold_android
      else DEFAULT_RSSI_THRESHOLD) with hthrv
    have hmwv : mac_window_visit defaultAnalyzer rawdata m =
        fastWindowLoop defaultAnalyzer thr sorted := rfl
    have hslow : is_visitor defaultClassifier sorted
        (if dt ≠ 0 then defaultClassifier.get_rssi_threshold dt
          else DEFAULT_RSSI_THRESHOLD) = is_visitor defaultClassifier sorted thr := by
      rw [← hthr]
    have hequiv := fast_slow_window_equiv thr sorted hpair hndt
    rw [← hdt] at hslow
    dsimp only
    rw [hslow]
    by_cases hfast : fastWindowLoop defaultAnalyzer thr sorted = true
    · have hisv := hequiv.mp hfast
      have hlen : defaultAnalyzer.min_detections ≤ group.length := by
        have h1 := fastWindowLoop_length defaultAnalyzer thr sorted hfast
        rw [hperm.length_eq] at h1
        exact h1
      have hmw : mac_window_visit defaultAnalyzer rawdata m = true := by
        rw [hmwv]; exact hfast
      rw [if_pos ⟨hlen, hmw⟩, if_pos hisv]
      exact iff_of_true rfl rfl
    · have hisv : ¬ is_visitor defaultClassifier sorted thr = true :=
        fun h => hfast (hequiv.mpr h)
      have hnc : ¬ (defaultAnalyzer.min_detections ≤ group.length ∧
          mac_window_visit defaultAnalyzer rawdata m = true) := by
        rintro ⟨-, hmw⟩
        rw [hmwv] at hmw
        exact hfast hmw
      rw [if_neg hnc, if_neg hisv]
      decide

/-- Witness for C3 on a table with distinct per-identifier times and
constant device types: identifier `A` (six strong detections) is `visit` on
the fast path iff `real_visitor` on the slow path, and identifier `B` with a
single record is fast-rejected to `pass_by`. -/
theorem C3_witness :
    ∃ (tr trB : RssiTrafficRow) (cv : VisitorRow),
      (classify_traffic_with_rssi defaultAnalyzer
          [⟨0, "A", "s", -74, 1⟩, ⟨1, "A", "s", -74, 1⟩, ⟨2, "A", "s", -74, 1⟩,
           ⟨3, "A", "s", -74, 1⟩, ⟨4, "A", "s", -74, 1⟩, ⟨5, "A", "s", -74, 1⟩,
           ⟨0, "B", "s", -74, 1⟩]).find? (fun r => r.mac_address = "A") = some tr ∧
      (classify_visitors defaultClassifier
          [⟨0, "A", "s", -74, 1⟩, ⟨1, "A", "s", -74, 1⟩, ⟨2, "A", "s", -74, 1⟩,
           ⟨3, "A", "s", -74, 1⟩, ⟨4, "A", "s", -74, 1⟩, ⟨5, "A", "s", -74, 1⟩,
           ⟨0, "B", "s", -74, 1⟩]).find? (fun r => r.mac_address = "A") = some cv ∧
      tr.traffic_type = "visit" ∧ cv.visitor_type = "real_visitor" ∧
      (classify_traffic_with_rssi defaultAnalyzer
          [⟨0, "A", "s", -74, 1⟩, ⟨1, "A", "s", -74, 1⟩, ⟨2, "A", "s", -74, 1⟩,
           ⟨3, "A", "s", -74, 1⟩, ⟨4, "A", "s", -74, 1⟩, ⟨5, "A", "s", -74, 1⟩,
           ⟨0, "B", "s", -74, 1⟩]).find? (fun r => r.mac_address = "B") = some trB ∧
      trB.traffic_type = "pass_by" := by
  refine ⟨_, _, _, rfl, rfl, by decide, ?_, rfl, ?_⟩
  · exact (C3_fast_slow_equivalence.2
      [⟨0, "A", "s", -74, 1⟩, ⟨1, "A", "s", -74, 1⟩, ⟨2, "A", "s", -74, 1⟩,
           ⟨3, "A", "s", -74, 1⟩, ⟨4, "A", "s", -74, 1⟩, ⟨5, "A", "s", -74, 1⟩,
           ⟨0, "B", "s", -74, 1⟩] (by decide) (by decide) "A" _ _ rfl rfl).mp (by decide)
  · exact C3_fast_slow_equivalence.1
      [⟨0, "A", "s", -74, 1⟩, ⟨1, "A", "s", -74, 1⟩, ⟨2, "A", "s", -74, 1⟩,
           ⟨3, "A", "s", -74, 1⟩, ⟨4, "A", "s", -74, 1⟩, ⟨5, "A", "s", -74, 1⟩,
           ⟨0, "B", "s", -74, 1⟩] "B" _ rfl (by decide)


/-! ### C6: weak-signal cap in similarity scoring -/

/-- **C6**: with fast mode off, whenever the signal-vector term is below 0.5
the overall similarity is exactly `rssi_score * 0.5`, whatever the temporal,
spatial, pattern and movement terms are; in particular a pair with signal
term 0 — e.g. when RSSI data is missing altogether — scores 0 overall and is
rejected by any positive threshold. -/
theorem C6_weak_signal_cap (S : MACStitcher) (mac_a_addr mac_b_addr : String)
    (mac_a mac_b : Feature) (time_gap : ℤ) (overlap_time : Option ℤ)
    (hfm : S.fast_mode = false) :
    (rssi_vector_score S mac_a_addr mac_b_addr overlap_time < 1/2 →
      calculate_similarity S mac_a_addr mac_b_addr mac_a mac_b time_gap overlap_time =
        ((rssi_vector_score S mac_a_addr mac_b_addr overlap_time : ℚ) : ℝ) * 0.5) ∧
    (S.rssi_data = none → rssi_vector_score S mac_a_addr mac_b_addr overlap_time = 0) ∧
    (rssi_vector_score S mac_a_addr mac_b_addr overlap_time = 0 →
      calculate_similarity S mac_a_addr mac_b_addr mac_a mac_b time_gap overlap_time = 0 ∧
      (0 < S.threshold →
        calculate_similarity S mac_a_addr mac_b_addr mac_a mac_b time_gap overlap_time <
          S.threshold)) := by
  have hmain : ∀ h : rssi_vector_score S mac_a_addr mac_b_addr overlap_time < 1/2,
      calculate_similarity S mac_a_addr mac_b_addr mac_a mac_b time_gap overlap_time =
        ((rssi_vector_score S mac_a_addr mac_b_addr overlap_time : ℚ) : ℝ) * 0.5 := by
    intro h
    unfold calculate_similarity
    rw [hfm]
    simp only [Bool.false_eq_true, if_false]
    rw [if_pos h]
  refine ⟨hmain, ?_, ?_⟩
  · intro hnone
    unfold rssi_vector_score
    rw [hnone]
  · intro h0
    have hlt : rssi_vector_score S mac_a_addr mac_b_addr overlap_time < 1/2 := by
      rw [h0]; norm_num
    have := hmain hlt
    rw [h0] at this
    norm_num at this
    refine ⟨this, fun ht => ?_⟩
    rw [this]
    exact ht

/-- Witness for C6: a stitcher constructed with no raw data and fast mode
off gives signal score 0 to any pair, and its overall similarity is 0. -/
theorem C6_witness :
    rssi_vector_score (MACStitcher.init 60 (3/5) none false) "a" "b" (some 0) = 0 ∧
    calculate_similarity (MACStitcher.init 60 (3/5) none false) "a" "b"
      ⟨"a", 0, 0, 1, 0, 0, 0, 0, 0, 0, 0, 0, 1, 0, 0⟩
      ⟨"b", 0, 0, 1, 0, 0, 0, 0, 0, 0, 0, 0, 1, 0, 0⟩ 0 (some 0) = 0 := by
  have h := C6_weak_signal_cap (MACStitcher.init 60 (3/5) none false) "a" "b"
    ⟨"a", 0, 0, 1, 0, 0, 0, 0, 0, 0, 0, 0, 1, 0, 0⟩
    ⟨"b", 0, 0, 1, 0, 0, 0, 0, 0, 0, 0, 0, 1, 0, 0⟩ 0 (some 0) rfl
  have h0 := h.2.1 rfl
  exact ⟨h0, (h.2.2 h0).1⟩

/-! ### C4: soundness of candidate generation -/

/-- The initial element bounds a `foldl max`. -/
theorem le_foldl_max (l : List ℤ) : ∀ a : ℤ, a ≤ l.foldl max a := by
  induction l with
  | nil => intro a; exact le_refl a
  | cons b t ih => intro a; exact le_trans (le_max_left a b) (ih (max a b))

/-- Every element bounds into a `foldl max`. -/
theorem mem_le_foldl_max (l : List ℤ) : ∀ (a x : ℤ), x ∈ l → x ≤ l.foldl max a := by
  induction l with
  | nil => intro a x hx; exact absurd hx (by simp)
  | cons b t ih =>
    intro a x hx
    rcases List.mem_cons.mp hx with rfl | hx
    · exact le_trans (le_max_right a x) (le_foldl_max t (max a x))
    · exact ih (max a b) x hx

/-- A `foldl max` is the initial element or a member. -/
theorem foldl_max_mem (l : List ℤ) : ∀ a : ℤ, l.foldl max a = a ∨ l.foldl max a ∈ l := by
  induction l with
  | nil => intro a; exact Or.inl rfl
  | cons b t ih =>
    intro a
    rcases ih (max a b) with h | h
    · rcases max_choice a b with hm | hm
      · rw [List.foldl_cons, h, hm]; exact Or.inl rfl
      · rw [List.foldl_cons, h, hm]; exact Or.inr (List.mem_cons_self b t)
    · exact Or.inr (List.mem_cons_of_mem b h)

/-- `maxD` of a non-empty list is a member. -/
theorem maxD_mem {l : List ℤ} (h : l ≠ []) : maxD l ∈ l := by
  cases l with
  | nil => exact absurd rfl h
  | cons a t =>
    have hd : maxD (a :: t) = t.foldl max a := rfl
    rw [hd]
    rcases foldl_max_mem t a with h1 | h1
    · rw [h1]; exact List.mem_cons_self a t
    · exact List.mem_cons_of_mem a h1

/-- `maxD` bounds every member. -/
theorem le_maxD {l : List ℤ} {x : ℤ} (hx : x ∈ l) : x ≤ maxD l := by
  cases l with
  | nil => exact absurd hx (by simp)
  | cons a t =>
    have hd : maxD (a :: t) = t.foldl max a := rfl
    rw [hd]
    rcases List.mem_cons.mp hx with rfl | hx
    · exact le_foldl_max t x
    · exact mem_le_foldl_max t a x hx


/-- **C4** amended (the lower bound `0 ≤ b.first − a.last` of the claim is
dropped — the code only enforces the upper bound, see the counterexample):
every candidate `(mac_a, mac_b, time_gap, overlap_time)` produced by
`generate_candidates` satisfies: `mac_a ≠ mac_b`; the looked-up feature rows
share a device class which is 1 or 10; `time_gap` is
`(b.first_time − a.last_time) * 10` (seconds); `b.first_time` is within the
time window after `a.last_time` (so `time_gap ≤ time_window`); and
`overlap_time` is a common `time_index` of the two identifiers in the
positions table, the latest one. -/
theorem C4_generate_candidates_sound (S : MACStitcher) (features_df : List Feature)
    (positions_df : List Pos) (mac_a mac_b : String) (time_gap overlap_time : ℤ)
    (hmem : (mac_a, mac_b, time_gap, overlap_time) ∈
      generate_candidates S features_df positions_df) :
    mac_a ≠ mac_b ∧
    (∃ fa fb : Feature, fa ∈ features_df ∧ fb ∈ features_df ∧
      fa.mac_address = mac_a ∧ fb.mac_address = mac_b ∧
      fa.device_type = fb.device_type ∧ (fa.device_type = 1 ∨ fa.device_type = 10) ∧
      time_gap = (fb.first_time - fa.last_time) * 10 ∧
      (fb.first_time : ℚ) ≤ (fa.last_time : ℚ) + S.time_window / 10 ∧
      (time_gap : ℚ) ≤ S.time_window) ∧
    (∃ p ∈ positions_df, p.mac_address = mac_a ∧ p.time_index = overlap_time) ∧
    (∃ p ∈ positions_df, p.mac_address = mac_b ∧ p.time_index = overlap_time) ∧
    (∀ t : ℤ, (∃ p ∈ positions_df, p.mac_address = mac_a ∧ p.time_index = t) →
      (∃ p ∈ positions_df, p.mac_address = mac_b ∧ p.time_index = t) →
      t ≤ overlap_time) := by
  unfold generate_candidates at hmem
  by_cases hre : (features_df.filter
      (fun f => f.device_type = 1 ∨ f.device_type = 10)).length = 0
  · rw [if_pos hre] at hmem
    exact absurd hmem (by simp)
  rw [if_neg hre] at hmem
  rw [List.mem_flatMap] at hmem
  obtain ⟨dt, hdtmem, hmem⟩ := hmem
  by_cases hlt : ((features_df.filter
      (fun f => f.device_type = 1 ∨ f.device_type = 10)).filter
        (fun f => f.device_type = dt)).length < 2
  · rw [if_pos hlt] at hmem
    exact absurd hmem (by simp)
  rw [if_neg hlt, List.mem_flatMap] at hmem
  obtain ⟨ra, hra, hmem⟩ := hmem
  rw [List.mem_filterMap] at hmem
  obtain ⟨rb, hrb, hpair⟩ := hmem
  set type_features := (features_df.filter
    (fun f => f.device_type = 1 ∨ f.device_type = 10)).filter
      (fun f => f.device_type = dt) with htf
  set positions_filtered := positions_df.filter (fun p =>
    ((features_df.filter (fun f => f.device_type = 1 ∨ f.device_type = 10)).map
      Feature.mac_address).contains p.mac_address) with hpf
  unfold candidatePair at hpair
  by_cases hab : ra.mac_address = rb.mac_address
  · rw [if_pos hab] at hpair
    exact absurd hpair (by simp)
  rw [if_neg hab] at hpair
  cases hfa : featureDict type_features ra.mac_address with
  | none => rw [hfa] at hpair; exact absurd hpair (by simp)
  | some fa =>
  cases hfb : featureDict type_features rb.mac_address with
  | none => rw [hfa, hfb] at hpair; exact absurd hpair (by simp)
  | some fb =>
  rw [hfa, hfb] at hpair
  simp only at hpair
  by_cases hwin : ((fb.first_time : ℚ)) > (fa.last_time : ℚ) + S.time_window / 10
  · rw [if_pos hwin] at hpair
    exact absurd hpair (by simp)
  rw [if_neg hwin] at hpair
  by_cases hov : (macTimes positions_filtered ra.mac_address).filter
      (fun t => t ∈ macTimes positions_filtered rb.mac_address) = []
  · rw [if_pos hov] at hpair
    exact absurd hpair (by simp)
  rw [if_neg hov] at hpair
  have hinj := Option.some.inj hpair
  obtain ⟨h1, h2, h3, h4⟩ : mac_a = ra.mac_address ∧ mac_b = rb.mac_address ∧
      time_gap = (fb.first_time - fa.last_time) * 10 ∧
      overlap_time = maxD ((macTimes positions_filtered ra.mac_address).filter
        (fun t => t ∈ macTimes positions_filtered rb.mac_address)) := by
    have := hinj.symm
    exact ⟨congrArg (fun c => c.1) this, congrArg (fun c => c.2.1) this,
      congrArg (fun c => c.2.2.1) this, congrArg (fun c => c.2.2.2) this⟩
  subst h1
  subst h2
  subst h3
  subst h4
  unfold featureDict at hfa hfb
  have hfamem : fa ∈ type_features ∧ fa.mac_address = ra.mac_address := by
    refine ⟨List.mem_reverse.mp (List.mem_of_find?_eq_some hfa), ?_⟩
    have hp := List.find?_some hfa
    exact of_decide_eq_true hp
  have hfbmem : fb ∈ type_features ∧ fb.mac_address = rb.mac_address := by
    refine ⟨List.mem_reverse.mp (List.mem_of_find?_eq_some hfb), ?_⟩
    have hp := List.find?_some hfb
    exact of_decide_eq_true hp
  have hfa_dt : fa.device_type = dt :=
    of_decide_eq_true (List.mem_filter.mp hfamem.1).2
  have hfb_dt : fb.device_type = dt :=
    of_decide_eq_true (List.mem_filter.mp hfbmem.1).2
  have hfa_feat : fa ∈ features_df :=
    List.mem_of_mem_filter (List.mem_of_mem_filter hfamem.1)
  have hfb_feat : fb ∈ features_df :=
    List.mem_of_mem_filter (List.mem_of_mem_filter hfbmem.1)
  have hdt110 : dt = 1 ∨ dt = 10 := by
    rcases List.mem_cons.mp hdtmem with h | h
    · exact Or.inl h
    · rcases List.mem_cons.mp h with h | h
      · exact Or.inr h
      · exact absurd h (by simp)
  have hramem : ra.mac_address ∈ (features_df.filter
      (fun f => f.device_type = 1 ∨ f.device_type = 10)).map Feature.mac_address := by
    have : ra ∈ features_df.filter (fun f => f.device_type = 1 ∨ f.device_type = 10) :=
      List.mem_of_mem_filter hra
    exact List.mem_map_of_mem Feature.mac_address this
  have hrbmem : rb.mac_address ∈ (features_df.filter
      (fun f => f.device_type = 1 ∨ f.device_type = 10)).map Feature.mac_address := by
    have : rb ∈ features_df.filter (fun f => f.device_type = 1 ∨ f.device_type = 10) :=
      List.mem_of_mem_filter hrb
    exact List.mem_map_of_mem Feature.mac_address this
  have htimes : ∀ mac : String, mac ∈ (features_df.filter
      (fun f => f.device_type = 1 ∨ f.device_type = 10)).map Feature.mac_address →
      ∀ t : ℤ, t ∈ macTimes positions_filtered mac ↔
        ∃ p ∈ positions_df, p.mac_address = mac ∧ p.time_index = t := by
    intro mac hmac t
    unfold macTimes
    rw [mem_uniqueFirst, List.mem_map]
    constructor
    · rintro ⟨p, hp, rfl⟩
      have hp1 := List.mem_filter.mp hp
      have hp2 := List.mem_filter.mp hp1.1
      exact ⟨p, hp2.1, of_decide_eq_true hp1.2, rfl⟩
    · rintro ⟨p, hp, hpm, rfl⟩
      refine ⟨p, List.mem_filter.mpr ⟨List.mem_filter.mpr ⟨hp, ?_⟩, by simp [hpm]⟩, rfl⟩
      have hpmem : p.mac_address ∈ (features_df.filter
          (fun f => f.device_type = 1 ∨ f.device_type = 10)).map Feature.mac_address := by
        rw [hpm]; exact hmac
      exact List.elem_iff.mpr hpmem
  have hmax_mem := maxD_mem hov
  have hmm := List.mem_filter.mp hmax_mem
  have hta : maxD ((macTimes positions_filtered ra.mac_address).filter
      (fun t => t ∈ macTimes positions_filtered rb.mac_address)) ∈
      macTimes positions_filtered ra.mac_address := hmm.1
  have htb : maxD ((macTimes positions_filtered ra.mac_address).filter
      (fun t => t ∈ macTimes positions_filtered rb.mac_address)) ∈
      macTimes positions_filtered rb.mac_address := of_decide_eq_true hmm.2
  refine ⟨fun h => hab (by rw [h]), ?_, ?_, ?_, ?_⟩
  · refine ⟨fa, fb, hfa_feat, hfb_feat, hfamem.2, hfbmem.2, by rw [hfa_dt, hfb_dt], ?_, rfl, ?_, ?_⟩
    · rw [hfa_dt]; exact hdt110
    · exact le_of_not_lt hwin
    · push_cast
      have := le_of_not_lt hwin
      linarith
  · exact (htimes ra.mac_address hramem _).mp hta
  · exact (htimes rb.mac_address hrbmem _).mp htb
  · intro t hpa hpb
    have h1 := (htimes ra.mac_address hramem t).mpr hpa
    have h2 := (htimes rb.mac_address hrbmem t).mpr hpb
    exact le_maxD (List.mem_filter.mpr ⟨h1, decide_eq_true h2⟩)


/-- **C4** counterexample: the claim asserts `0 ≤ b.first − a.last` for
every candidate.  With identifier `a` seen at times 0 and 5 and identifier
`b` seen at time 0 (a shared time), `generate_candidates` emits the
candidate `(a, b)` with `time_gap = (0 − 5) * 10 = −50 < 0`: the code never
checks the lower bound, only `b.first ≤ a.last + time_window/10`. -/
theorem C4_counterexample :
    ∃ c ∈ generate_candidates (MACStitcher.init 60 (3/5) none true)
        (extract_features [⟨0, "a", 1, 0, 0⟩, ⟨5, "a", 1, 0, 0⟩, ⟨0, "b", 1, 0, 0⟩])
        [⟨0, "a", 1, 0, 0⟩, ⟨5, "a", 1, 0, 0⟩, ⟨0, "b", 1, 0, 0⟩],
      c.1 = "a" ∧ c.2.1 = "b" ∧ c.2.2.1 < 0 := by
  decide

/-- Witness for C4 at the same concrete pipeline input: the candidate
`(a, b, −50, 0)` is generated, its identifiers are distinct and its
time gap respects the (amended) upper bound. -/
theorem C4_witness :
    ¬ ("a" : String) = "b" ∧
      (((-50 : ℤ) : ℚ)) ≤ (MACStitcher.init 60 (3/5) none true).time_window := by
  have h := C4_generate_candidates_sound (MACStitcher.init 60 (3/5) none true)
    (extract_features [⟨0, "a", 1, 0, 0⟩, ⟨5, "a", 1, 0, 0⟩, ⟨0, "b", 1, 0, 0⟩])
    [⟨0, "a", 1, 0, 0⟩, ⟨5, "a", 1, 0, 0⟩, ⟨0, "b", 1, 0, 0⟩]
    "a" "b" (-50) 0 (by decide)
  obtain ⟨h1, ⟨fa, fb, -, -, -, -, -, -, -, -, hle⟩, -, -, -⟩ := h
  exact ⟨h1, hle⟩


/-! ### Association-list and linking-state lemmas -/

/-- A successful first-match lookup is preserved by appending. -/
theorem lookupAssoc_append_some {β : Type} :
    ∀ {l : List (String × β)} {k : String} {v : β},
      lookupAssoc l k = some v → ∀ l', lookupAssoc (l ++ l') k = some v := by
  intro l
  induction l with
  | nil => intro k v h; exact absurd h (by simp [lookupAssoc])
  | cons e t ih =>
    intro k v h l'
    rw [List.cons_append]
    unfold lookupAssoc at h ⊢
    by_cases hk : e.1 = k
    · rw [if_pos hk] at h ⊢
      exact h
    · rw [if_neg hk] at h ⊢
      exact ih h l'

/-- A failed lookup defers to the appended tail. -/
theorem lookupAssoc_append_none {β : Type} :
    ∀ {l : List (String × β)} {k : String},
      lookupAssoc l k = none → ∀ l', lookupAssoc (l ++ l') k = lookupAssoc l' k := by
  intro l
  induction l with
  | nil => intro k _ l'; rfl
  | cons e t ih =>
    intro k h l'
    rcases e with ⟨k', w⟩
    rw [List.cons_append]
    unfold lookupAssoc at h
    by_cases hk : k' = k
    · rw [if_pos hk] at h
      exact absurd h (by simp)
    · rw [if_neg hk] at h
      show (if k' = k then some w else lookupAssoc (t ++ l') k) = lookupAssoc l' k
      rw [if_neg hk]
      exact ih h l'

/-- A found binding is a member of the association list. -/
theorem lookupAssoc_mem {β : Type} :
    ∀ {l : List (String × β)} {k : String} {v : β},
      lookupAssoc l k = some v → (k, v) ∈ l := by
  intro l
  induction l with
  | nil => intro k v h; exact absurd h (by simp [lookupAssoc])
  | cons e t ih =>
    intro k v h
    rcases e with ⟨k', w⟩
    unfold lookupAssoc at h
    by_cases hk : k' = k
    · rw [if_pos hk] at h
      subst hk
      rw [← Option.some.inj h]
      exact List.mem_cons_self _ t
    · rw [if_neg hk] at h
      exact List.mem_cons_of_mem _ (ih h)

/-- A lookup fails exactly off the key set. -/
theorem lookupAssoc_eq_none {β : Type} :
    ∀ {l : List (String × β)} {k : String},
      lookupAssoc l k = none ↔ k ∉ l.map Prod.fst := by
  intro l
  induction l with
  | nil => intro k; simp [lookupAssoc]
  | cons e t ih =>
    intro k
    rcases e with ⟨k', w⟩
    unfold lookupAssoc
    by_cases hk : k' = k
    · rw [if_pos hk]
      simp [hk]
    · rw [if_neg hk]
      simp only [List.map_cons, List.mem_cons]
      rw [ih]
      constructor
      · rintro h1 (h2 | h2)
        · exact hk h2.symm
        · exact h1 h2
      · intro h1
        exact fun h2 => h1 (Or.inr h2)

/-- A lookup on the singleton of a fresh binding. -/
theorem lookupAssoc_singleton {β : Type} (k : String) (v : β) (m : String) :
    lookupAssoc [(k, v)] m = if k = m then some v else none := rfl

/-- Appending a fresh binding preserves the uniqueness lookup of others. -/
theorem lookupAssoc_snoc_other {β : Type} (l : List (String × β)) (k : String) (v : β)
    (m : String) (hm : m ≠ k) : lookupAssoc (l ++ [(k, v)]) m = lookupAssoc l m := by
  cases h : lookupAssoc l m with
  | some w => exact lookupAssoc_append_some h _
  | none =>
    rw [lookupAssoc_append_none h, lookupAssoc_singleton]
    rw [if_neg (fun hc => hm hc.symm)]

/-- Appending a fresh binding makes its key found. -/
theorem lookupAssoc_snoc_self {β : Type} (l : List (String × β)) (k : String) (v : β)
    (h : lookupAssoc l k = none) : lookupAssoc (l ++ [(k, v)]) k = some v := by
  rw [lookupAssoc_append_none h, lookupAssoc_singleton, if_pos rfl]

/-- Appending a fresh binding with a bounded id preserves `LinkInv`. -/
theorem LinkInv_snoc (st : LinkState) (k : String) (j J : ℕ) (hinv : LinkInv st)
    (hk : k ∉ st.assigned) (hJ : st.journey_id ≤ J) (hjJ : j ≤ J) :
    LinkInv ⟨st.mac_to_journey ++ [(k, j)], J, st.assigned ++ [k]⟩ := by
  obtain ⟨hI1, hI2, hI3⟩ := hinv
  have hknone : lookupAssoc st.mac_to_journey k = none := by
    cases h : lookupAssoc st.mac_to_journey k with
    | none => rfl
    | some w => exact absurd ((hI1 k).mpr (by rw [h]; rfl)) hk
  refine ⟨?_, ?_, ?_⟩
  · intro m
    simp only [List.mem_append, List.mem_singleton]
    by_cases hm : m = k
    · subst hm
      rw [lookupAssoc_snoc_self _ _ _ hknone]
      simp
    · rw [lookupAssoc_snoc_other _ _ _ _ hm]
      rw [← hI1 m]
      simp [hm]
  · simp only [List.map_append, List.map_cons, List.map_nil]
    rw [List.nodup_append]
    refine ⟨hI2, by simp, ?_⟩
    intro x hx
    simp only [List.mem_singleton]
    intro hc
    subst hc
    exact (lookupAssoc_eq_none.mp hknone) hx
  · intro e he
    rcases List.mem_append.mp he with he | he
    · exact le_trans (hI3 e he) hJ
    · rw [List.mem_singleton.mp he]
      exact hjJ

/-- One `assignPair` step: invariant preservation, append-only growth of the
mapping, monotone id counter, and the assigned-set recurrence. -/
theorem assignPair_spec (st : LinkState) (e : String × (String × ℝ)) (h : LinkInv st) :
    LinkInv (assignPair st e) ∧
    (∃ tail, (assignPair st e).mac_to_journey = st.mac_to_journey ++ tail) ∧
    st.journey_id ≤ (assignPair st e).journey_id ∧
    (∀ m, m ∈ (assignPair st e).assigned ↔ (m ∈ st.assigned ∨ m = e.1 ∨ m = e.2.1)) := by
  unfold assignPair
  dsimp only
  by_cases ha : e.1 ∈ st.assigned
  · rw [if_pos ha]
    by_cases hb : e.2.1 ∈ st.assigned
    · rw [if_pos hb]
      refine ⟨h, ⟨[], (List.append_nil _).symm⟩, le_refl _, ?_⟩
      intro m
      constructor
      · exact fun hm => Or.inl hm
      · rintro (hm | rfl | rfl)
        · exact hm
        · exact ha
        · exact hb
    · rw [if_neg hb]
      have hanone := (h.1 e.1).mp ha
      obtain ⟨v, hv⟩ := Option.isSome_iff_exists.mp hanone
      have hval : (lookupAssoc st.mac_to_journey e.1).getD 0 = v := by rw [hv]; rfl
      have hvmem := lookupAssoc_mem hv
      refine ⟨?_, ⟨_, rfl⟩, le_refl _, ?_⟩
      · have := LinkInv_snoc st e.2.1 ((lookupAssoc st.mac_to_journey e.1).getD 0)
          st.journey_id h hb (le_refl _) (by rw [hval]; exact h.2.2 _ hvmem)
        exact this
      · intro m
        simp only [List.mem_append, List.mem_singleton]
        constructor
        · rintro (hm | rfl)
          · exact Or.inl hm
          · exact Or.inr (Or.inr rfl)
        · rintro (hm | rfl | rfl)
          · exact Or.inl hm
          · exact Or.inl ha
          · exact Or.inr rfl
  · rw [if_neg ha]
    have hanone : lookupAssoc st.mac_to_journey e.1 = none := by
      cases hl : lookupAssoc st.mac_to_journey e.1 with
      | none => rfl
      | some w => exact absurd ((h.1 e.1).mpr (by rw [hl]; rfl)) ha
    have hinv1 : LinkInv ⟨st.mac_to_journey ++ [(e.1, st.journey_id + 1)],
        st.journey_id + 1, st.assigned ++ [e.1]⟩ :=
      LinkInv_snoc st e.1 (st.journey_id + 1) (st.journey_id + 1) h ha
        (Nat.le_succ _) (le_refl _)
    by_cases hb : e.2.1 ∈ st.assigned ++ [e.1]
    · rw [if_pos hb]
      refine ⟨hinv1, ⟨_, rfl⟩, Nat.le_succ _, ?_⟩
      intro m
      simp only [List.mem_append, List.mem_singleton] at hb ⊢
      constructor
      · rintro (hm | rfl)
        · exact Or.inl hm
        · exact Or.inr (Or.inl rfl)
      · rintro (hm | rfl | rfl)
        · exact Or.inl hm
        · exact Or.inr rfl
        · exact hb
    · rw [if_neg hb]
      have hlook1 : lookupAssoc (st.mac_to_journey ++ [(e.1, st.journey_id + 1)]) e.1 =
          some (st.journey_id + 1) := lookupAssoc_snoc_self _ _ _ hanone
      have hval : (lookupAssoc (st.mac_to_journey ++ [(e.1, st.journey_id + 1)]) e.1).getD 0 =
          st.journey_id + 1 := by rw [hlook1]; rfl
      refine ⟨?_, ?_, Nat.le_succ _, ?_⟩
      · have := LinkInv_snoc ⟨st.mac_to_journey ++ [(e.1, st.journey_id + 1)],
          st.journey_id + 1, st.assigned ++ [e.1]⟩ e.2.1
          ((lookupAssoc (st.mac_to_journey ++ [(e.1, st.journey_id + 1)]) e.1).getD 0)
          (st.journey_id + 1) hinv1 hb (le_refl _) (by rw [hval])
        exact this
      · refine ⟨[(e.1, st.journey_id + 1)] ++
          [(e.2.1, (lookupAssoc (st.mac_to_journey ++ [(e.1, st.journey_id + 1)]) e.1).getD 0)],
          ?_⟩
        rw [← List.append_assoc]
      · intro m
        simp only [List.mem_append, List.mem_singleton]
        constructor
        · rintro ((hm | rfl) | rfl)
          · exact Or.inl hm
          · exact Or.inr (Or.inl rfl)
          · exact Or.inr (Or.inr rfl)
        · rintro (hm | rfl | rfl)
          · exact Or.inl (Or.inl hm)
          · exact Or.inl (Or.inr rfl)
          · exact Or.inr rfl

/-- The `assignPair` fold over the best-link entries: invariant, append-only
growth, monotone counter, and the assigned set is the initial one plus every
source and target of the processed entries. -/
theorem assignPair_foldl_spec (mn : List (String × (String × ℝ))) :
    ∀ st : LinkState, LinkInv st →
      LinkInv (mn.foldl assignPair st) ∧
      (∃ tail, (mn.foldl assignPair st).mac_to_journey = st.mac_to_journey ++ tail) ∧
      st.journey_id ≤ (mn.foldl assignPair st).journey_id ∧
      (∀ m, m ∈ (mn.foldl assignPair st).assigned ↔
        (m ∈ st.assigned ∨ ∃ e ∈ mn, m = e.1 ∨ m = e.2.1)) := by
  induction mn with
  | nil =>
    intro st h
    refine ⟨h, ⟨[], (List.append_nil _).symm⟩, le_refl _, ?_⟩
    simp
  | cons e t ih =>
    intro st h
    rw [List.foldl_cons]
    obtain ⟨h1, ⟨tl1, htl1⟩, h3, h4⟩ := assignPair_spec st e h
    obtain ⟨g1, ⟨tl2, htl2⟩, g3, g4⟩ := ih (assignPair st e) h1
    refine ⟨g1, ⟨tl1 ++ tl2, by rw [htl2, htl1, List.append_assoc]⟩, le_trans h3 g3, ?_⟩
    intro m
    rw [g4 m, h4 m]
    constructor
    · rintro ((hm | hm | hm) | ⟨f, hf, hfm⟩)
      · exact Or.inl hm
      · exact Or.inr ⟨e, List.mem_cons_self _ _, Or.inl hm⟩
      · exact Or.inr ⟨e, List.mem_cons_self _ _, Or.inr hm⟩
      · exact Or.inr ⟨f, List.mem_cons_of_mem _ hf, hfm⟩
    · rintro (hm | ⟨f, hf, hfm⟩)
      · exact Or.inl (Or.inl hm)
      · rcases List.mem_cons.mp hf with rfl | hf
        · exact Or.inl (Or.inr hfm)
        · exact Or.inr ⟨f, hf, hfm⟩

/-- The linking step for one entry whose target is still unassigned: source
and target end up with the same journey id. -/
theorem assignPair_links (st : LinkState) (e : String × (String × ℝ)) (hinv : LinkInv st)
    (hb : e.2.1 ∉ st.assigned) (hne : e.2.1 ≠ e.1) :
    ∃ j, lookupAssoc (assignPair st e).mac_to_journey e.1 = some j ∧
      lookupAssoc (assignPair st e).mac_to_journey e.2.1 = some j := by
  have hbnone : lookupAssoc st.mac_to_journey e.2.1 = none := by
    cases hl : lookupAssoc st.mac_to_journey e.2.1 with
    | none => rfl
    | some w => exact absurd ((hinv.1 e.2.1).mpr (by rw [hl]; rfl)) hb
  unfold assignPair
  dsimp only
  by_cases ha : e.1 ∈ st.assigned
  · rw [if_pos ha, if_neg hb]
    obtain ⟨v, hv⟩ := Option.isSome_iff_exists.mp ((hinv.1 e.1).mp ha)
    refine ⟨v, ?_, ?_⟩
    · exact lookupAssoc_append_some hv _
    · rw [lookupAssoc_snoc_self _ _ _ hbnone, hv]
      rfl
  · rw [if_neg ha]
    have hanone : lookupAssoc st.mac_to_journey e.1 = none := by
      cases hl : lookupAssoc st.mac_to_journey e.1 with
      | none => rfl
      | some w => exact absurd ((hinv.1 e.1).mpr (by rw [hl]; rfl)) ha
    have hb1 : e.2.1 ∉ st.assigned ++ [e.1] := by
      simp only [List.mem_append, List.mem_singleton]
      rintro (hc | hc)
      · exact hb hc
      · exact hne hc
    rw [if_neg hb1]
    have hlook1 : lookupAssoc (st.mac_to_journey ++ [(e.1, st.journey_id + 1)]) e.1 =
        some (st.journey_id + 1) := lookupAssoc_snoc_self _ _ _ hanone
    refine ⟨st.journey_id + 1, ?_, ?_⟩
    · exact lookupAssoc_append_some hlook1 _
    · have hbnone1 : lookupAssoc (st.mac_to_journey ++ [(e.1, st.journey_id + 1)]) e.2.1 =
          none := by
        rw [lookupAssoc_snoc_other _ _ _ _ hne, hbnone]
      rw [lookupAssoc_snoc_self _ _ _ hbnone1, hlook1]
      rfl

/-- The unlinked sweep of `link_macs`: existing bindings survive unchanged,
a key is found exactly when it was found before or is swept, result keys are
unique, every found id is an old id or exceeds the starting counter, and
every swept identifier gets a fresh journey id shared with no other key. -/
theorem assignUnlinked_spec (ms : List String) :
    ∀ st : LinkState, LinkInv st → ms.Nodup → (∀ m ∈ ms, m ∉ st.assigned) →
      (∀ k v, lookupAssoc st.mac_to_journey k = some v →
        lookupAssoc (assignUnlinked st ms) k = some v) ∧
      (∀ k, (lookupAssoc (assignUnlinked st ms) k).isSome ↔
        ((lookupAssoc st.mac_to_journey k).isSome ∨ k ∈ ms)) ∧
      ((assignUnlinked st ms).map Prod.fst).Nodup ∧
      (∀ k v, lookupAssoc (assignUnlinked st ms) k = some v →
        lookupAssoc st.mac_to_journey k = some v ∨ st.journey_id < v) ∧
      (∀ m ∈ ms, ∃ j, lookupAssoc (assignUnlinked st ms) m = some j ∧
        st.journey_id < j ∧
        ∀ m', m' ≠ m → lookupAssoc (assignUnlinked st ms) m' ≠ some j) := by
  induction ms with
  | nil =>
    intro st hinv _ _
    refine ⟨fun k v h => h, ?_, hinv.2.1, fun k v h => Or.inl h, ?_⟩
    · intro k
      simp [assignUnlinked]
    · intro m hm
      exact absurd hm (List.not_mem_nil m)
  | cons m t ih =>
    intro st hinv hnd hout
    have hmout : m ∉ st.assigned := hout m (List.mem_cons_self _ _)
    have hmnone : lookupAssoc st.mac_to_journey m = none := by
      cases hl : lookupAssoc st.mac_to_journey m with
      | none => rfl
      | some w => exact absurd ((hinv.1 m).mpr (by rw [hl]; rfl)) hmout
    have hmnotint : m ∉ t := (List.nodup_cons.mp hnd).1
    have hinv' : LinkInv ⟨st.mac_to_journey ++ [(m, st.journey_id + 1)],
        st.journey_id + 1, st.assigned ++ [m]⟩ :=
      LinkInv_snoc st m (st.journey_id + 1) (st.journey_id + 1) hinv hmout
        (Nat.le_succ _) (le_refl _)
    have hout' : ∀ x ∈ t, x ∉ (st.assigned ++ [m]) := by
      intro x hx
      simp only [List.mem_append, List.mem_singleton]
      rintro (hc | rfl)
      · exact hout x (List.mem_cons_of_mem _ hx) hc
      · exact hmnotint hx
    obtain ⟨S1, S2, S3, S4, S5⟩ := ih _ hinv' (List.nodup_cons.mp hnd).2 hout'
    have heq : assignUnlinked st (m :: t) =
        assignUnlinked ⟨st.mac_to_journey ++ [(m, st.journey_id + 1)],
          st.journey_id + 1, st.assigned ++ [m]⟩ t := rfl
    rw [heq]
    refine ⟨?_, ?_, S3, ?_, ?_⟩
    · intro k v h
      exact S1 k v (lookupAssoc_append_some h _)
    · intro k
      rw [S2 k]
      by_cases hk : k = m
      · subst hk
        rw [lookupAssoc_snoc_self _ _ _ hmnone]
        simp
      · rw [lookupAssoc_snoc_other _ _ _ _ hk]
        simp [hk]
    · intro k v h
      rcases S4 k v h with h1 | h1
      · by_cases hk : k = m
        · subst hk
          rw [lookupAssoc_snoc_self _ _ _ hmnone] at h1
          exact Or.inr (by rw [← Option.some.inj h1]; exact Nat.lt_succ_self _)
        · rw [lookupAssoc_snoc_other _ _ _ _ hk] at h1
          exact Or.inl h1
      · exact Or.inr (Nat.lt_of_succ_lt h1)
    · intro x hx
      rcases List.mem_cons.mp hx with rfl | hxt
      · refine ⟨st.journey_id + 1, ?_, Nat.lt_succ_self _, ?_⟩
        · exact S1 x _ (lookupAssoc_snoc_self _ _ _ hmnone)
        · intro m' hm' hc
          rcases S4 m' _ hc with h1 | h1
          · by_cases hk : m' = x
            · exact hm' hk
            · rw [lookupAssoc_snoc_other _ _ _ _ hk] at h1
              have := hinv.2.2 _ (lookupAssoc_mem h1)
              omega
          · exact absurd h1 (lt_irrefl _)
      · obtain ⟨j, hj1, hj2, hj3⟩ := S5 x hxt
        exact ⟨j, hj1, Nat.lt_of_succ_lt hj2, hj3⟩

/-- The empty journey-assignment state satisfies the invariant. -/
theorem LinkInv_init : LinkInv (⟨[], 0, []⟩ : LinkState) := by
  refine ⟨?_, List.nodup_nil, ?_⟩
  · intro m
    simp [lookupAssoc]
  · intro e he
    exact absurd he (List.not_mem_nil e)

/-- **C5** amended (the source puts `a` and `b` of a retained best link in
one journey only when `b` is not already assigned when the link is
processed; a later source whose best link points at an already-linked target
gets a journey `b` is not in, refuting the unconditional claim): given the
scored list and the produced mapping of `link_macs`, (i) the `k`-th
best-link entry whose target is neither the source nor the target of an
earlier entry, nor its own source, maps source and target to one shared
journey id; (ii) every feature-table identifier that is the source or
target of no best-link entry gets a journey id shared with no other
identifier (a singleton journey). -/
theorem C5_link_macs_best_links (S : MACStitcher) (features_df : List Feature)
    (candidates : List Candidate) (scored : List (String × String × ℝ))
    (mtj : List (String × ℕ))
    (hscored : score_candidates S features_df candidates = some scored)
    (hlink : link_macs S features_df candidates = some mtj) :
    (∀ (k : ℕ) (hk : k < (mac_next_fold scored).length),
      ((mac_next_fold scored)[k]).2.1 ∉
          ((mac_next_fold scored).take k).map Prod.fst →
      ((mac_next_fold scored)[k]).2.1 ∉
          ((mac_next_fold scored).take k).map (fun e => e.2.1) →
      ((mac_next_fold scored)[k]).2.1 ≠ ((mac_next_fold scored)[k]).1 →
      ∃ j, lookupAssoc mtj (((mac_next_fold scored)[k]).1) = some j ∧
        lookupAssoc mtj (((mac_next_fold scored)[k]).2.1) = some j) ∧
    (∀ m, m ∈ features_df.map Feature.mac_address →
      (∀ e ∈ mac_next_fold scored, e.1 ≠ m ∧ e.2.1 ≠ m) →
      ∃ j, lookupAssoc mtj m = some j ∧
        ∀ m', lookupAssoc mtj m' = some j → m' = m) := by
  have hmtj : mtj = assignUnlinked
      ((mac_next_fold scored).foldl assignPair ⟨[], 0, []⟩)
      ((uniqueFirst (features_df.map Feature.mac_address)).filter
        (fun m => m ∉ ((mac_next_fold scored).foldl assignPair ⟨[], 0, []⟩).assigned)) := by
    unfold link_macs at hlink
    rw [hscored] at hlink
    exact (Option.some.inj hlink).symm
  obtain ⟨hNinv, -, -, hNassigned⟩ :=
    assignPair_foldl_spec (mac_next_fold scored) ⟨[], 0, []⟩ LinkInv_init
  have hnodupU : ((uniqueFirst (features_df.map Feature.mac_address)).filter
      (fun m => m ∉ ((mac_next_fold scored).foldl assignPair ⟨[], 0, []⟩).assigned)).Nodup :=
    List.Nodup.filter _ (nodup_uniqueFirst _)
  have houtU : ∀ m ∈ ((uniqueFirst (features_df.map Feature.mac_address)).filter
      (fun m => m ∉ ((mac_next_fold scored).foldl assignPair ⟨[], 0, []⟩).assigned)),
      m ∉ ((mac_next_fold scored).foldl assignPair ⟨[], 0, []⟩).assigned := by
    intro m hm
    exact of_decide_eq_true (List.mem_filter.mp hm).2
  obtain ⟨S1, S2, S3, S4, S5⟩ := assignUnlinked_spec _ _ hNinv hnodupU houtU
  constructor
  · intro k hk h1 h2 h3
    have hsplit : (mac_next_fold scored).foldl assignPair (⟨[], 0, []⟩ : LinkState) =
        ((mac_next_fold scored).drop (k+1)).foldl assignPair
          (assignPair (((mac_next_fold scored).take k).foldl assignPair ⟨[], 0, []⟩)
            ((mac_next_fold scored)[k])) := by
      conv_lhs => rw [← List.take_append_drop k (mac_next_fold scored)]
      rw [List.foldl_append, ← List.getElem_cons_drop _ k hk, List.foldl_cons]
    obtain ⟨hkinv, -, -, hkassigned⟩ :=
      assignPair_foldl_spec ((mac_next_fold scored).take k) ⟨[], 0, []⟩ LinkInv_init
    have hb : ((mac_next_fold scored)[k]).2.1 ∉
        (((mac_next_fold scored).take k).foldl assignPair
          (⟨[], 0, []⟩ : LinkState)).assigned := by
      intro hc
      rcases (hkassigned _).mp hc with hc | ⟨f, hf, hfm⟩
      · exact absurd hc (List.not_mem_nil _)
      · rcases hfm with hfm | hfm
        · exact h1 (hfm ▸ List.mem_map_of_mem Prod.fst hf)
        · exact h2 (hfm ▸ List.mem_map_of_mem (fun e => e.2.1) hf)
    obtain ⟨j, hj1, hj2⟩ :=
      assignPair_links _ ((mac_next_fold scored)[k]) hkinv hb h3
    obtain ⟨-, ⟨tail, htail⟩, -, -⟩ :=
      assignPair_foldl_spec ((mac_next_fold scored).drop (k+1)) _
        (assignPair_spec _ ((mac_next_fold scored)[k]) hkinv).1
    have hNj1 : lookupAssoc ((mac_next_fold scored).foldl assignPair
        (⟨[], 0, []⟩ : LinkState)).mac_to_journey ((mac_next_fold scored)[k]).1 = some j := by
      rw [hsplit, htail]
      exact lookupAssoc_append_some hj1 _
    have hNj2 : lookupAssoc ((mac_next_fold scored).foldl assignPair
        (⟨[], 0, []⟩ : LinkState)).mac_to_journey ((mac_next_fold scored)[k]).2.1 = some j := by
      rw [hsplit, htail]
      exact lookupAssoc_append_some hj2 _
    rw [hmtj]
    exact ⟨j, S1 _ _ hNj1, S1 _ _ hNj2⟩
  · intro m hmf hnotin
    have hmA : m ∉ ((mac_next_fold scored).foldl assignPair
        (⟨[], 0, []⟩ : LinkState)).assigned := by
      intro hc
      rcases (hNassigned m).mp hc with hc | ⟨f, hf, hfm⟩
      · exact absurd hc (List.not_mem_nil _)
      · rcases hfm with hfm | hfm
        · exact (hnotin f hf).1 hfm.symm
        · exact (hnotin f hf).2 hfm.symm
    have hmem : m ∈ (uniqueFirst (features_df.map Feature.mac_address)).filter
        (fun m => m ∉ ((mac_next_fold scored).foldl assignPair ⟨[], 0, []⟩).assigned) :=
      List.mem_filter.mpr ⟨mem_uniqueFirst.mpr hmf, decide_eq_true hmA⟩
    obtain ⟨j, hj1, -, hj3⟩ := S5 m hmem
    rw [hmtj]
    refine ⟨j, hj1, ?_⟩
    intro m' hm'
    by_contra hne
    exact hj3 m' hne hm'

/-- **C5** counterexample: three zeroed same-class features and two best
links `a1 → b` and `a2 → b`, both scoring 0.82 ≥ threshold 0.6.  The
retained best-scoring link of `a2` points at `b`, yet `link_macs` puts `a2`
in journey 2 and `b` in journey 1: when the target of a retained best link
is already assigned, source and target do NOT land in the same journey, so
journeys do not follow best links transitively as claimed. -/
theorem C5_counterexample :
    ∃ scored mtj,
      score_candidates C5S C5features C5candidates = some scored ∧
      link_macs C5S C5features C5candidates = some mtj ∧
      (∃ s, ("a2", ("b", s)) ∈ mac_next_fold scored ∧ C5S.threshold ≤ s) ∧
      lookupAssoc mtj "a2" = some 2 ∧ lookupAssoc mtj "b" = some 1 := by
  have hσ : ∀ u v : String,
      calculate_similarity C5S u v (flatFeature u) (flatFeature v) 0 (some 0) = 0.82 := by
    intro u v
    have hfast : C5S.fast_mode = true := rfl
    unfold calculate_similarity
    rw [hfast, if_pos rfl]
    unfold fullScore
    have htw : C5S.time_window = 60 := rfl
    rw [htw]
    norm_num [flatFeature, Real.sqrt_zero, max_eq_right]
  have hthr : C5S.threshold ≤ (0.82 : ℝ) := by
    have h : C5S.threshold = ((3 : ℝ)/5) := rfl
    rw [h]
    norm_num
  have hstep : score_candidates C5S C5features C5candidates =
      some (if C5S.threshold ≤
          calculate_similarity C5S "a1" "b" (flatFeature "a1") (flatFeature "b") 0 (some 0) then
        ("a1", "b",
          calculate_similarity C5S "a1" "b" (flatFeature "a1") (flatFeature "b") 0 (some 0)) ::
          (if C5S.threshold ≤
              calculate_similarity C5S "a2" "b" (flatFeature "a2") (flatFeature "b") 0 (some 0) then
            [("a2", "b",
              calculate_similarity C5S "a2" "b" (flatFeature "a2") (flatFeature "b") 0 (some 0))]
          else [])
      else
        (if C5S.threshold ≤
            calculate_similarity C5S "a2" "b" (flatFeature "a2") (flatFeature "b") 0 (some 0) then
          [("a2", "b",
            calculate_similarity C5S "a2" "b" (flatFeature "a2") (flatFeature "b") 0 (some 0))]
        else [])) := rfl
  rw [hσ "a1" "b", hσ "a2" "b", if_pos hthr, if_pos hthr] at hstep
  refine ⟨[("a1", "b", (0.82 : ℝ)), ("a2", "b", (0.82 : ℝ))],
    [("a1", 1), ("b", 1), ("a2", 2)], hstep, ?_, ?_, ?_, ?_⟩
  · unfold link_macs
    rw [hstep]
    rfl
  · refine ⟨(0.82 : ℝ), ?_, hthr⟩
    have hmn : mac_next_fold [("a1", "b", (0.82 : ℝ)), ("a2", "b", (0.82 : ℝ))] =
        [("a1", ("b", (0.82 : ℝ))), ("a2", ("b", (0.82 : ℝ)))] := rfl
    rw [hmn]
    exact List.mem_cons_of_mem _ (List.mem_singleton.mpr rfl)
  · rfl
  · rfl

/-- Witness for C5 at a one-identifier feature table with no candidates:
the identifier appears in no best-link entry, so it gets a singleton
journey. -/
theorem C5_witness :
    ∃ j, lookupAssoc [("a", 1)] "a" = some j ∧
      ∀ m', lookupAssoc [("a", 1)] m' = some j → m' = "a" := by
  have h := C5_link_macs_best_links C5S [flatFeature "a"] [] [] [("a", 1)] rfl rfl
  refine h.2 "a" ?_ ?_
  · simp [flatFeature]
  · intro e he
    exact absurd he (List.not_mem_nil e)

/-! ### C1: journey coverage is a partition -/

/-- Mapping with a section then retracting recovers the list. -/
theorem map_section {α β : Type} (f : α → β) (g : β → α) (hfg : ∀ a, g (f a) = a) :
    ∀ l : List α, (l.map f).map g = l := by
  intro l
  induction l with
  | nil => rfl
  | cons a t ih => simp only [List.map_cons, hfg, ih]

/-- The identifier column of the feature table is the deduplicated
identifier column of the positions table. -/
theorem extract_features_macs (ps : List Pos) :
    (extract_features ps).map Feature.mac_address = uniqueFirst (ps.map Pos.mac_address) := by
  unfold extract_features
  exact map_section _ Feature.mac_address (fun _ => rfl) _

/-- A feature-dictionary lookup of a present identifier succeeds. -/
theorem featureDict_isSome {features : List Feature} {mac : String}
    (h : mac ∈ features.map Feature.mac_address) : (featureDict features mac).isSome := by
  unfold featureDict
  rw [List.find?_isSome]
  obtain ⟨f, hf, hfm⟩ := List.mem_map.mp h
  exact ⟨f, List.mem_reverse.mpr hf, decide_eq_true hfm⟩

/-- Members of an updated association list are the update or old members. -/
theorem mem_updateAssoc {β : Type} :
    ∀ {l : List (String × β)} {k : String} {v : β} {x : String × β},
      x ∈ updateAssoc l k v → x = (k, v) ∨ x ∈ l := by
  intro l
  induction l with
  | nil =>
    intro k v x hx
    exact Or.inl (List.mem_singleton.mp hx)
  | cons e t ih =>
    intro k v x hx
    rcases e with ⟨k', w⟩
    by_cases hk : k' = k
    · have h : updateAssoc ((k', w) :: t) k v = (k', v) :: t := by
        rw [updateAssoc, if_pos hk]
      rw [h] at hx
      rcases List.mem_cons.mp hx with rfl | hxt
      · exact Or.inl (by rw [hk])
      · exact Or.inr (List.mem_cons_of_mem _ hxt)
    · have h : updateAssoc ((k', w) :: t) k v = (k', w) :: updateAssoc t k v := by
        rw [updateAssoc, if_neg hk]
      rw [h] at hx
      rcases List.mem_cons.mp hx with rfl | hxt
      · exact Or.inr (List.mem_cons_self _ _)
      · rcases ih hxt with h1 | h1
        · exact Or.inl h1
        · exact Or.inr (List.mem_cons_of_mem _ h1)

/-- A best-link step only inserts the processed entry. -/
theorem mem_mac_next_step (acc : List (String × (String × ℝ))) (e : String × String × ℝ) :
    ∀ x ∈ mac_next_step acc e, x = e ∨ x ∈ acc := by
  intro x hx
  unfold mac_next_step at hx
  cases hl : lookupAssoc acc e.1 with
  | none =>
    rw [hl] at hx
    rcases mem_updateAssoc hx with h | h
    · exact Or.inl h
    · exact Or.inr h
  | some p =>
    rcases p with ⟨b0, s0⟩
    rw [hl] at hx
    have hx' : x ∈ (if s0 < e.2.2 then updateAssoc acc e.1 (e.2.1, e.2.2) else acc) := hx
    by_cases hs : s0 < e.2.2
    · rw [if_pos hs] at hx'
      rcases mem_updateAssoc hx' with h | h
      · exact Or.inl h
      · exact Or.inr h
    · rw [if_neg hs] at hx'
      exact Or.inr hx'

/-- Every kept best-link entry is one of the scored links. -/
theorem mac_next_fold_mem (scored : List (String × String × ℝ)) :
    ∀ e ∈ mac_next_fold scored, e ∈ scored := by
  have key : ∀ (l acc : List (String × String × ℝ)),
      ∀ x ∈ l.foldl mac_next_step acc, x ∈ acc ∨ x ∈ l := by
    intro l
    induction l with
    | nil =>
      intro acc x hx
      exact Or.inl hx
    | cons e t ih =>
      intro acc x hx
      rw [List.foldl_cons] at hx
      rcases ih _ x hx with hx | hx
      · rcases mem_mac_next_step acc e x hx with h | h
        · exact Or.inr (List.mem_cons.mpr (Or.inl h))
        · exact Or.inl h
      · exact Or.inr (List.mem_cons_of_mem _ hx)
  intro e he
  rcases key scored [] e he with h | h
  · exact absurd h (List.not_mem_nil e)
  · exact h

/-- Both identifiers of every generated candidate sit in the feature
table. -/
theorem generate_candidates_macs (S : MACStitcher) (features_df : List Feature)
    (positions_df : List Pos) (c : Candidate)
    (hmem : c ∈ generate_candidates S features_df positions_df) :
    c.1 ∈ features_df.map Feature.mac_address ∧
    c.2.1 ∈ features_df.map Feature.mac_address := by
  unfold generate_candidates at hmem
  by_cases hre : (features_df.filter
      (fun f => f.device_type = 1 ∨ f.device_type = 10)).length = 0
  · rw [if_pos hre] at hmem
    exact absurd hmem (by simp)
  rw [if_neg hre] at hmem
  rw [List.mem_flatMap] at hmem
  obtain ⟨dt, hdtmem, hmem⟩ := hmem
  by_cases hlt : ((features_df.filter
      (fun f => f.device_type = 1 ∨ f.device_type = 10)).filter
        (fun f => f.device_type = dt)).length < 2
  · rw [if_pos hlt] at hmem
    exact absurd hmem (by simp)
  rw [if_neg hlt, List.mem_flatMap] at hmem
  obtain ⟨ra, hra, hmem⟩ := hmem
  rw [List.mem_filterMap] at hmem
  obtain ⟨rb, hrb, hpair⟩ := hmem
  set type_features := (features_df.filter
    (fun f => f.device_type = 1 ∨ f.device_type = 10)).filter
      (fun f => f.device_type = dt) with htf
  set positions_filtered := positions_df.filter (fun p =>
    ((features_df.filter (fun f => f.device_type = 1 ∨ f.device_type = 10)).map
      Feature.mac_address).contains p.mac_address) with hpf
  unfold candidatePair at hpair
  by_cases hab : ra.mac_address = rb.mac_address
  · rw [if_pos hab] at hpair
    exact absurd hpair (by simp)
  rw [if_neg hab] at hpair
  have hrafd : ra ∈ features_df := List.mem_of_mem_filter (List.mem_of_mem_filter hra)
  have hrbfd : rb ∈ features_df := List.mem_of_mem_filter (List.mem_of_mem_filter hrb)
  cases hfa : featureDict type_features ra.mac_address with
  | none =>
    rw [hfa] at hpair
    exact absurd hpair (by simp)
  | some fa =>
  cases hfb : featureDict type_features rb.mac_address with
  | none =>
    rw [hfa, hfb] at hpair
    exact absurd hpair (by simp)
  | some fb =>
  rw [hfa, hfb] at hpair
  simp only at hpair
  by_cases hwin : ((fb.first_time : ℚ)) > (fa.last_time : ℚ) + S.time_window / 10
  · rw [if_pos hwin] at hpair
    exact absurd hpair (by simp)
  rw [if_neg hwin] at hpair
  by_cases hov : (macTimes positions_filtered ra.mac_address).filter
      (fun t => t ∈ macTimes positions_filtered rb.mac_address) = []
  · rw [if_pos hov] at hpair
    exact absurd hpair (by simp)
  rw [if_neg hov] at hpair
  have hinj := (Option.some.inj hpair).symm
  constructor
  · rw [show c.1 = ra.mac_address from congrArg (fun c => c.1) hinj]
    exact List.mem_map_of_mem Feature.mac_address hrafd
  · rw [show c.2.1 = rb.mac_address from congrArg (fun c => c.2.1) hinj]
    exact List.mem_map_of_mem Feature.mac_address hrbfd

/-- The scoring loop succeeds whenever every candidate identifier is in the
feature table, and every scored link comes from a candidate. -/
theorem score_candidates_spec (S : MACStitcher) (features_df : List Feature) :
    ∀ cs : List Candidate,
      (∀ c ∈ cs, c.1 ∈ features_df.map Feature.mac_address ∧
        c.2.1 ∈ features_df.map Feature.mac_address) →
      ∃ scored, score_candidates S features_df cs = some scored ∧
        ∀ x ∈ scored, ∃ c ∈ cs, x.1 = c.1 ∧ x.2.1 = c.2.1 := by
  intro cs
  induction cs with
  | nil =>
    intro _
    refine ⟨[], rfl, ?_⟩
    intro x hx
    exact absurd hx (List.not_mem_nil x)
  | cons c t ih =>
    intro h
    obtain ⟨c1, c2, c3, c4⟩ := c
    obtain ⟨h1, h2⟩ := h _ (List.mem_cons_self _ _)
    obtain ⟨rest, hrest, hrestmem⟩ := ih (fun c hc => h c (List.mem_cons_of_mem _ hc))
    obtain ⟨fa, hfa⟩ := Option.isSome_iff_exists.mp (featureDict_isSome h1)
    obtain ⟨fb, hfb⟩ := Option.isSome_iff_exists.mp (featureDict_isSome h2)
    have heq : score_candidates S features_df ((c1, c2, c3, c4) :: t) =
        match featureDict features_df c1, featureDict features_df c2 with
        | some fa, some fb =>
          match score_candidates S features_df t with
          | some rest =>
            some (if S.threshold ≤ calculate_similarity S c1 c2 fa fb c3 (some c4) then
              (c1, c2, calculate_similarity S c1 c2 fa fb c3 (some c4)) :: rest else rest)
          | none => none
        | _, _ => none := rfl
    rw [heq, hfa, hfb, hrest]
    by_cases hthr : S.threshold ≤ calculate_similarity S c1 c2 fa fb c3 (some c4)
    · refine ⟨(c1, c2, calculate_similarity S c1 c2 fa fb c3 (some c4)) :: rest, ?_, ?_⟩
      · show some (if S.threshold ≤ calculate_similarity S c1 c2 fa fb c3 (some c4) then
            (c1, c2, calculate_similarity S c1 c2 fa fb c3 (some c4)) :: rest else rest) = _
        rw [if_pos hthr]
      · intro x hx
        rcases List.mem_cons.mp hx with rfl | hx
        · exact ⟨(c1, c2, c3, c4), List.mem_cons_self _ _, rfl, rfl⟩
        · obtain ⟨c', hc', hcx⟩ := hrestmem x hx
          exact ⟨c', List.mem_cons_of_mem _ hc', hcx⟩
    · refine ⟨rest, ?_, ?_⟩
      · show some (if S.threshold ≤ calculate_similarity S c1 c2 fa fb c3 (some c4) then
            (c1, c2, calculate_similarity S c1 c2 fa fb c3 (some c4)) :: rest else rest) = _
        rw [if_neg hthr]
      · intro x hx
        obtain ⟨c', hc', hcx⟩ := hrestmem x hx
        exact ⟨c', List.mem_cons_of_mem _ hc', hcx⟩

/-- `link_macs` succeeds on scored candidates whose identifiers all sit in
the feature table, and the produced mapping binds exactly the feature-table
identifiers, each once. -/
theorem link_macs_spec (S : MACStitcher) (features_df : List Feature)
    (candidates : List Candidate) (scored : List (String × String × ℝ))
    (hscored : score_candidates S features_df candidates = some scored)
    (hcmacs : ∀ c ∈ candidates, c.1 ∈ features_df.map Feature.mac_address ∧
        c.2.1 ∈ features_df.map Feature.mac_address)
    (hscmem : ∀ x ∈ scored, ∃ c ∈ candidates, x.1 = c.1 ∧ x.2.1 = c.2.1) :
    ∃ mtj, link_macs S features_df candidates = some mtj ∧
      (∀ m, (lookupAssoc mtj m).isSome ↔ m ∈ features_df.map Feature.mac_address) ∧
      (mtj.map Prod.fst).Nodup := by
  have hlink : link_macs S features_df candidates =
      some (assignUnlinked ((mac_next_fold scored).foldl assignPair ⟨[], 0, []⟩)
        ((uniqueFirst (features_df.map Feature.mac_address)).filter
          (fun m => m ∉ ((mac_next_fold scored).foldl assignPair ⟨[], 0, []⟩).assigned))) := by
    unfold link_macs
    rw [hscored]
    rfl
  obtain ⟨hNinv, -, -, hNassigned⟩ :=
    assignPair_foldl_spec (mac_next_fold scored) ⟨[], 0, []⟩ LinkInv_init
  have hnodupU : ((uniqueFirst (features_df.map Feature.mac_address)).filter
      (fun m => m ∉ ((mac_next_fold scored).foldl assignPair ⟨[], 0, []⟩).assigned)).Nodup :=
    List.Nodup.filter _ (nodup_uniqueFirst _)
  have houtU : ∀ m ∈ (uniqueFirst (features_df.map Feature.mac_address)).filter
      (fun m => m ∉ ((mac_next_fold scored).foldl assignPair ⟨[], 0, []⟩).assigned),
      m ∉ ((mac_next_fold scored).foldl assignPair ⟨[], 0, []⟩).assigned :=
    fun m hm => of_decide_eq_true (List.mem_filter.mp hm).2
  obtain ⟨S1, S2, S3, S4, S5⟩ := assignUnlinked_spec _ _ hNinv hnodupU houtU
  refine ⟨_, hlink, ?_, S3⟩
  intro m
  rw [S2 m]
  constructor
  · rintro (h | h)
    · have hass : m ∈ ((mac_next_fold scored).foldl assignPair
          (⟨[], 0, []⟩ : LinkState)).assigned := (hNinv.1 m).mpr h
      rcases (hNassigned m).mp hass with hc | ⟨e, he, hem⟩
      · exact absurd hc (List.not_mem_nil m)
      · obtain ⟨c, hcm, hc1, hc2⟩ := hscmem e (mac_next_fold_mem scored e he)
        rcases hem with rfl | rfl
        · rw [hc1]
          exact (hcmacs c hcm).1
        · rw [hc2]
          exact (hcmacs c hcm).2
    · exact mem_uniqueFirst.mp (List.mem_filter.mp h).1
  · intro hm
    by_cases hass : m ∈ ((mac_next_fold scored).foldl assignPair
        (⟨[], 0, []⟩ : LinkState)).assigned
    · exact Or.inl ((hNinv.1 m).mp hass)
    · exact Or.inr (List.mem_filter.mpr ⟨mem_uniqueFirst.mpr hm, decide_eq_true hass⟩)

/-- The journeys of `create_journeys` cover only table identifiers, and
every table identifier lies in exactly one journey. -/
theorem create_journeys_partition (ps : List Pos) (mtj : List (String × ℕ)) :
    (∀ jr ∈ create_journeys ps mtj, ∀ m ∈ jr.macs, m ∈ ps.map Pos.mac_address) ∧
    (∀ m ∈ ps.map Pos.mac_address, ∃! jr, jr ∈ create_journeys ps mtj ∧ m ∈ jr.macs) := by
  constructor
  · intro jr hjrm m hm
    obtain ⟨jid, hjid, hbuild⟩ := List.mem_map.mp hjrm
    rw [← hbuild] at hm
    have hm2 : m ∈ uniqueFirst ((((ps.map fun p => (p, lookupAssoc mtj p.mac_address)).filter
        (fun q => q.2 = jid)).map Prod.fst).map Pos.mac_address) := hm
    rw [mem_uniqueFirst] at hm2
    obtain ⟨p', hp', hp'm⟩ := List.mem_map.mp hm2
    obtain ⟨q, hq, hqp⟩ := List.mem_map.mp hp'
    obtain ⟨p'', hp'', rfl⟩ := List.mem_map.mp (List.mem_filter.mp hq).1
    subst hqp
    exact List.mem_map.mpr ⟨p'', hp'', hp'm⟩
  · intro m hm
    obtain ⟨p, hp, hpm⟩ := List.mem_map.mp hm
    have hpj : (p, lookupAssoc mtj p.mac_address) ∈
        ps.map fun p => (p, lookupAssoc mtj p.mac_address) :=
      List.mem_map_of_mem _ hp
    have hjid : lookupAssoc mtj m ∈ uniqueFirst
        ((ps.map fun p => (p, lookupAssoc mtj p.mac_address)).map Prod.snd) := by
      rw [mem_uniqueFirst]
      have h := List.mem_map_of_mem Prod.snd hpj
      rw [hpm] at h
      exact h
    refine ⟨_, ⟨List.mem_map_of_mem _ hjid, ?_⟩, ?_⟩
    · show m ∈ uniqueFirst ((((ps.map fun p => (p, lookupAssoc mtj p.mac_address)).filter
        (fun q => q.2 = lookupAssoc mtj m)).map Prod.fst).map Pos.mac_address)
      rw [mem_uniqueFirst]
      refine List.mem_map.mpr ⟨p,
        List.mem_map.mpr ⟨(p, lookupAssoc mtj p.mac_address), ?_, rfl⟩, hpm⟩
      refine List.mem_filter.mpr ⟨hpj, ?_⟩
      exact decide_eq_true (by rw [hpm])
    · rintro jr' ⟨hjr', hm'⟩
      obtain ⟨jid', hjid', hbuild'⟩ := List.mem_map.mp hjr'
      rw [← hbuild'] at hm'
      have hm2 : m ∈ uniqueFirst ((((ps.map fun p => (p, lookupAssoc mtj p.mac_address)).filter
          (fun q => q.2 = jid')).map Prod.fst).map Pos.mac_address) := hm'
      rw [mem_uniqueFirst] at hm2
      obtain ⟨p', hp', hp'm⟩ := List.mem_map.mp hm2
      obtain ⟨q, hq, hqp⟩ := List.mem_map.mp hp'
      have hqf := List.mem_filter.mp hq
      obtain ⟨p'', hp'', rfl⟩ := List.mem_map.mp hqf.1
      subst hqp
      have hqeq : lookupAssoc mtj p''.mac_address = jid' := of_decide_eq_true hqf.2
      have hmac : Pos.mac_address p'' = m := hp'm
      rw [← hbuild']
      rw [show jid' = lookupAssoc mtj m from by rw [← hmac, ← hqeq]]

/-- **C1**: for every stitcher and positions table the pipeline of `stitch`
succeeds; the identifiers of the extracted features are exactly the input
identifiers; the `link_macs` mapping binds exactly those identifiers, each
through a single binding; and the journeys of `create_journeys` partition
them — every journey member is an input identifier and every input
identifier lies in exactly one journey. -/
theorem C1_stitch_partition (S : MACStitcher) (positions_df : List Pos) :
    ∃ features mtj journeys,
      stitch S positions_df = some (features, mtj, journeys) ∧
      (∀ m, m ∈ features.map Feature.mac_address ↔ m ∈ positions_df.map Pos.mac_address) ∧
      (∀ m, (lookupAssoc mtj m).isSome ↔ m ∈ positions_df.map Pos.mac_address) ∧
      (mtj.map Prod.fst).Nodup ∧
      (∀ jr ∈ journeys, ∀ m ∈ jr.macs, m ∈ positions_df.map Pos.mac_address) ∧
      (∀ m ∈ positions_df.map Pos.mac_address, ∃! jr, jr ∈ journeys ∧ m ∈ jr.macs) := by
  have hcmacs : ∀ c ∈ generate_candidates S (extract_features positions_df) positions_df,
      c.1 ∈ (extract_features positions_df).map Feature.mac_address ∧
      c.2.1 ∈ (extract_features positions_df).map Feature.mac_address :=
    fun c hc => generate_candidates_macs S _ _ c hc
  obtain ⟨scored, hscored, hscmem⟩ := score_candidates_spec S (extract_features positions_df)
    (generate_candidates S (extract_features positions_df) positions_df) hcmacs
  obtain ⟨mtj, hlink, hkeys, hnodup⟩ :=
    link_macs_spec S (extract_features positions_df)
      (generate_candidates S (extract_features positions_df) positions_df)
      scored hscored hcmacs hscmem
  have hstitch : stitch S positions_df =
      some (extract_features positions_df, mtj, create_journeys positions_df mtj) := by
    have h : stitch S positions_df = (link_macs S (extract_features positions_df)
        (generate_candidates S (extract_features positions_df) positions_df)).map
        (fun mac_to_journey => (extract_features positions_df, mac_to_journey,
          create_journeys positions_df mac_to_journey)) := rfl
    rw [h, hlink]
    rfl
  have hfm : ∀ m, m ∈ (extract_features positions_df).map Feature.mac_address ↔
      m ∈ positions_df.map Pos.mac_address := by
    intro m
    rw [extract_features_macs, mem_uniqueFirst]
  obtain ⟨hcov, hpart⟩ := create_journeys_partition positions_df mtj
  refine ⟨_, _, _, hstitch, hfm, ?_, hnodup, hcov, hpart⟩
  intro m
  rw [hkeys m, hfm m]


end StoreCross
